import Mathlib

/-!
# CHIP-8 interpreter (AzraelSec/chip-8): shallow embedding

Embedding of `pkg/chip8/chip8.go`, `internal/cpu/cpu.go`, `internal/ram/ram.go`
and `internal/display/display.go`.

Conventions.
* Go's fixed-size arrays are total functions `Nat → Nat` together with the
  array length; an access whose index is not below the length is a runtime
  fault (`index out of range`), modelled by `none` / `Outcome.fault`.
* `uint8` / `uint16` arithmetic is arithmetic on `Nat` reduced `% 256` /
  `% 65536` at the places where the Go operation can wrap.
* A method that mutates its receiver becomes a function returning the new
  machine.
-/

/-- Width of the framebuffer (`display.DisplayWidth`). -/
def DisplayWidth : Nat := 64

/-- Height of the framebuffer (`display.DisplayHeight`). -/
def DisplayHeight : Nat := 32

/-- Length of `display.GFX`, `DisplayWidth * DisplayHeight` bytes. -/
def GFXSize : Nat := DisplayWidth * DisplayHeight

/-- Offset of the font table in memory (`ram.fontStartAddr`). -/
def fontStartAddr : Nat := 0x50

/-- Offset at which programs are loaded (`ram.ProgramStartAddr`). -/
def ProgramStartAddr : Nat := 0x200

/-- Length of `ram.Ram`, declared as `[4000]byte`. -/
def RamSize : Nat := 4000

/-- Length of `cpu.CPU.Stack`, declared as `[16]uint16`. -/
def StackSize : Nat := 16

/-- Modelled from the spec: the declaration of `keys.Keys` (package
`internal/keys`) is not among the sources; the spec describes the input latch
as 16 independent one-byte flags with indices 0x0 to 0xF, so the array length
is 16. -/
def KeysSize : Nat := 16

/-- Array store `a[i] = v`. -/
def store (a : Nat → Nat) (i v : Nat) : Nat → Nat :=
  fun j => if j = i then v else a j

/-- Processor state, `cpu.CPU`. -/
structure CPU where
  V : Nat → Nat
  I : Nat
  PC : Nat
  DelayTimer : Nat
  SoundTimer : Nat
  Stack : Nat → Nat
  SP : Nat

/-- The machine, `chip8.Chip8`. The handler table `ophandlers` is fixed by
`New` and is represented by the dispatch in `decodeExecute`. The field `tone`
stands for the attached `AudioController`: `none` when `audio` is nil,
`some b` when a controller is attached and its tone is on (`b = true`, after
`StartBeep`) or off (`b = false`, after `StopBeep`). -/
structure Chip8 where
  cpu : CPU
  ram : Nat → Nat
  display : Nat → Nat
  keys : Nat → Nat
  opcode : Nat
  shouldDraw : Bool
  tone : Option Bool

/-- Result of a method returning `error`: `ok` is a nil error, `err` is the
error built by `unknowOpCodeErr` (it carries the raw opcode), `fault` is a Go
runtime fault (index out of range), after which nothing is returned. -/
inductive Outcome where
  | ok (c : Chip8)
  | err (raw : Nat) (c : Chip8)
  | fault

/-- Lift a handler that cannot return an error. -/
def Outcome.ofOption : Option Chip8 → Outcome
  | some c => Outcome.ok c
  | none => Outcome.fault

/-- Machine of a nil-error result. -/
def Outcome.state? : Outcome → Option Chip8
  | Outcome.ok c => some c
  | _ => none

/-- Go's builtin `copy(mem[off:], src)` on an array of length `size`: copies
`min (size - off) (len src)` bytes. -/
def copyInto (mem : Nat → Nat) (size off : Nat) (src : List Nat) : Nat → Nat :=
  fun i => if off ≤ i ∧ i < size ∧ i - off < src.length then src.getD (i - off) 0 else mem i

/-- Memory construction `ram.New`. The font table `fontMap` is declared outside the
given sources and is taken as a parameter. -/
def Ram.New (fontMap program : List Nat) : Nat → Nat :=
  let mem : Nat → Nat := fun _ => 0
  let mem := copyInto mem RamSize fontStartAddr fontMap
  copyInto mem RamSize ProgramStartAddr program

/-- Processor construction `cpu.New`. -/
def CPU.New : CPU :=
  { V := fun _ => 0, I := 0, PC := ProgramStartAddr, DelayTimer := 0, SoundTimer := 0,
    Stack := fun _ => 0, SP := 0 }

namespace Chip8

/-- Machine construction `chip8.New`. -/
def New (fontMap program : List Nat) : Chip8 :=
  { cpu := CPU.New, ram := Ram.New fontMap program, display := fun _ => 0,
    keys := fun _ => 0, opcode := 0, shouldDraw := false, tone := none }

/-- Method `SetKey(k uint8, s bool)`. -/
def SetKey (c : Chip8) (k : Nat) (s : Bool) : Option Chip8 :=
  if k < KeysSize then
    some { c with keys := store c.keys k (if s then 1 else 0) }
  else none

/-- Method `SetAudio`, attaching a controller whose tone is off. -/
def SetAudio (c : Chip8) : Chip8 :=
  { c with tone := some false }

/-- Method `Buffer`. -/
def Buffer (c : Chip8) : List Nat :=
  (List.range GFXSize).map c.display

/-- Method `CheckDraw`: the returned flag and the machine afterwards. -/
def CheckDraw (c : Chip8) : Bool × Chip8 :=
  let v := c.shouldDraw
  (v, { c with shouldDraw := false })

/-- Replace the processor state. -/
def setCpu (c : Chip8) (cpu : CPU) : Chip8 :=
  { c with cpu := cpu }

/-- The statement `c.cpu.PC += n`. -/
def advance (c : Chip8) (n : Nat) : Chip8 :=
  { c with cpu := { c.cpu with PC := (c.cpu.PC + n) % 65536 } }

/-- The statement `c.cpu.V[i] = v`. -/
def setV (c : Chip8) (i v : Nat) : Chip8 :=
  { c with cpu := { c.cpu with V := store c.cpu.V i v } }

/-- Operand `(c.opcode & 0x0F00) >> 8`. -/
def opX (c : Chip8) : Nat := (c.opcode &&& 0x0F00) >>> 8

/-- Operand `(c.opcode & 0x00F0) >> 4`. -/
def opY (c : Chip8) : Nat := (c.opcode &&& 0x00F0) >>> 4

/-- The word `uint16(c.ram[PC])<<8 | uint16(c.ram[PC+1])` read by `fetch`. -/
def opcodeAt (c : Chip8) : Nat :=
  (c.ram c.cpu.PC <<< 8) ||| c.ram ((c.cpu.PC + 1) % 65536)

/-- Method `fetch`. -/
def fetch (c : Chip8) : Option Chip8 :=
  if c.cpu.PC < RamSize ∧ (c.cpu.PC + 1) % 65536 < RamSize then
    some { c with opcode := opcodeAt c }
  else none

/-- Machine left by `fetch` when it does not fault. -/
def fetched (c : Chip8) : Chip8 :=
  { c with opcode := c.opcodeAt }

/-- Method `unknowOpCodeErr`. -/
def unknowOpCodeErr (c : Chip8) : Outcome :=
  Outcome.err c.opcode c

/-- Handler of 0x0NNN. -/
def callRCA1802 (c : Chip8) : Chip8 :=
  c.advance 2

/-- Handler of 0x00E0; `display.Clear` zeroes the framebuffer. -/
def clearScreen (c : Chip8) : Chip8 :=
  let c := { c with display := fun _ => 0 }
  c.advance 2

/-- Handler of 0x00EE. -/
def returnFromSubroutine (c : Chip8) : Option Chip8 :=
  if c.cpu.SP < StackSize then
    let c := c.setCpu { c.cpu with PC := c.cpu.Stack c.cpu.SP }
    some (c.setCpu { c.cpu with SP := (c.cpu.SP + 65535) % 65536 })
  else none

/-- Handler of 0x1NNN. -/
def jump (c : Chip8) : Chip8 :=
  c.setCpu { c.cpu with PC := c.opcode &&& 0x0FFF }

/-- Handler of 0x2NNN. -/
def callFunc (c : Chip8) : Option Chip8 :=
  let c := c.setCpu { c.cpu with SP := (c.cpu.SP + 1) % 65536 }
  if c.cpu.SP < StackSize then
    let c := c.setCpu { c.cpu with Stack := store c.cpu.Stack c.cpu.SP ((c.cpu.PC + 2) % 65536) }
    some (c.setCpu { c.cpu with PC := c.opcode &&& 0x0FFF })
  else none

/-- Handler of 0x3XNN. -/
def skipIf (c : Chip8) : Chip8 :=
  let vi := c.opX
  let d := (c.opcode &&& 0x00FF) % 256
  if c.cpu.V vi = d then c.advance 4 else c.advance 2

/-- Handler of 0x4XNN. -/
def skipIfNot (c : Chip8) : Chip8 :=
  let vi := c.opX
  let d := (c.opcode &&& 0x00FF) % 256
  if c.cpu.V vi ≠ d then c.advance 4 else c.advance 2

/-- Handler of 0x5XY0. -/
def skipIfReg (c : Chip8) : Chip8 :=
  let vx := c.opX
  let vy := c.opY
  if c.cpu.V vx = c.cpu.V vy then c.advance 4 else c.advance 2

/-- Handler of 0x6XNN. -/
def setRegister (c : Chip8) : Chip8 :=
  let vi := c.opX
  let d := c.opcode &&& 0x00FF
  (c.setV vi (d % 256)).advance 2

/-- Handler of 0x7XNN. -/
def addRegister (c : Chip8) : Chip8 :=
  let vi := c.opX
  let d := c.opcode &&& 0x00FF
  (c.setV vi ((c.cpu.V vi + d % 256) % 256)).advance 2

/-- Handler of 0x8XY0. -/
def assign (c : Chip8) : Chip8 :=
  (c.setV c.opX (c.cpu.V c.opY)).advance 2

/-- Handler of 0x8XY1. -/
def or (c : Chip8) : Chip8 :=
  (c.setV c.opX (c.cpu.V c.opX ||| c.cpu.V c.opY)).advance 2

/-- Handler of 0x8XY2. -/
def and (c : Chip8) : Chip8 :=
  (c.setV c.opX (c.cpu.V c.opX &&& c.cpu.V c.opY)).advance 2

/-- Handler of 0x8XY3. -/
def xor (c : Chip8) : Chip8 :=
  (c.setV c.opX (c.cpu.V c.opX ^^^ c.cpu.V c.opY)).advance 2

/-- Handler of 0x8XY4. The condition is `uint16(V[X]+V[Y]) > 0xFF`: the sum is
formed in `uint8`, so it is reduced modulo 256 before the conversion. -/
def add (c : Chip8) : Chip8 :=
  let c := if (c.cpu.V c.opX + c.cpu.V c.opY) % 256 > 0xFF then c.setV 0xF 1 else c.setV 0xF 0
  (c.setV c.opX ((c.cpu.V c.opX + c.cpu.V c.opY) % 256)).advance 2

/-- Subtraction in `uint8`. -/
def sub8 (a b : Nat) : Nat := (a + (256 - b % 256)) % 256

/-- Handler of 0x8XY5. -/
def sub (c : Chip8) : Chip8 :=
  let c := if c.cpu.V c.opX ≥ c.cpu.V c.opY then c.setV 0xF 1 else c.setV 0xF 0
  (c.setV c.opX (sub8 (c.cpu.V c.opX) (c.cpu.V c.opY))).advance 2

/-- Handler of 0x8XY6. -/
def shiftr (c : Chip8) : Chip8 :=
  let c := c.setV 0xF (c.cpu.V c.opX &&& 0x1)
  (c.setV c.opX (c.cpu.V c.opX >>> 1)).advance 2

/-- Handler of 0x8XY7. -/
def vxSubVy (c : Chip8) : Chip8 :=
  let c := if c.cpu.V c.opY ≥ c.cpu.V c.opX then c.setV 0xF 1 else c.setV 0xF 0
  (c.setV c.opX (sub8 (c.cpu.V c.opY) (c.cpu.V c.opX))).advance 2

/-- Handler of 0x8XYE. -/
def shiftl (c : Chip8) : Chip8 :=
  let c := c.setV 0xF ((c.cpu.V c.opX &&& 0x80) >>> 7)
  (c.setV c.opX ((c.cpu.V c.opX <<< 1) % 256)).advance 2

/-- Handler of 0x9XY0. -/
def skipIfNotReg (c : Chip8) : Chip8 :=
  let vx := c.opX
  let vy := c.opY
  if c.cpu.V vx ≠ c.cpu.V vy then c.advance 4 else c.advance 2

/-- Handler of 0xANNN. -/
def setIndex (c : Chip8) : Chip8 :=
  (c.setCpu { c.cpu with I := c.opcode &&& 0x0FFF }).advance 2

/-- Handler of 0xBNNN. -/
def jumpToVZPlus (c : Chip8) : Chip8 :=
  let nnn := c.opcode &&& 0x0FFF
  c.setCpu { c.cpu with PC := (nnn + c.cpu.V 0) % 65536 }

/-- Handler of 0xCXNN; `rnd` is the value returned by `rand.Intn(256)`. -/
def rand (rnd : Nat) (c : Chip8) : Chip8 :=
  let vx := c.opX
  let nn := (c.opcode &&& 0x00FF) % 256
  (c.setV vx ((rnd % 256) &&& nn)).advance 2

/-- Body of the inner loop of `draw` (one bit `xline` of the sprite row). With
`x`, `y` below 256, `yline` below 16 and `xline` below 8 the `uint16` sums
`x + xline` and `y + yline` cannot wrap, and `cfgPixel` is below
`DisplayWidth * DisplayHeight`, so the framebuffer accesses cannot fault. -/
def drawPixel (x y yline pixel : Nat) (c : Chip8) (xline : Nat) : Chip8 :=
  if pixel &&& (0b10000000 >>> xline) ≠ 0 then
    let px := (x + xline) % DisplayWidth
    let py := (y + yline) % DisplayHeight
    let cfgPixel := px + py * DisplayWidth
    let c := if c.display cfgPixel = 1 then c.setV 0xF 1 else c
    { c with display := store c.display cfgPixel (c.display cfgPixel ^^^ 1) }
  else c

/-- Body of the outer loop of `draw` (sprite row `yline`); the row is read from
`c.ram[c.cpu.I+yline]`, the address being formed in `uint16`. -/
def drawRow (x y : Nat) (c : Chip8) (yline : Nat) : Option Chip8 :=
  let addr := (c.cpu.I + yline) % 65536
  if addr < RamSize then
    let pixel := c.ram addr
    some ((List.range 8).foldl (drawPixel x y yline pixel) c)
  else none

/-- Handler of 0xDXYN. -/
def draw (c : Chip8) : Option Chip8 :=
  let x := c.cpu.V c.opX
  let y := c.cpu.V c.opY
  let h := c.opcode &&& 0x000F
  let c := c.setV 0xF 0
  match (List.range h).foldlM (drawRow x y) c with
  | some c => some ({ c with shouldDraw := true }.advance 2)
  | none => none

/-- Handler of 0xEX9E. -/
def skipIfKeyPressed (c : Chip8) : Option Chip8 :=
  if c.cpu.V c.opX < KeysSize then
    if c.keys (c.cpu.V c.opX) = 1 then some (c.advance 4) else some (c.advance 2)
  else none

/-- Handler of 0xEXA1. -/
def skipIfKeyNotPressed (c : Chip8) : Option Chip8 :=
  if c.cpu.V c.opX < KeysSize then
    if c.keys (c.cpu.V c.opX) = 1 then some (c.advance 2) else some (c.advance 4)
  else none

/-- Handler of 0xFX07. -/
def delayToVx (c : Chip8) : Chip8 :=
  (c.setV c.opX c.cpu.DelayTimer).advance 2

/-- Body of the loop of `waitForInput` for key index `i`. -/
def waitForInputStep (c : Chip8) (i : Nat) : Chip8 :=
  if c.keys i ≠ 0 then (c.setV c.opX (i % 256)).advance 2 else c

/-- Handler of 0xFX0A: `for i, k := range c.keys`. -/
def waitForInput (c : Chip8) : Chip8 :=
  (List.range KeysSize).foldl waitForInputStep c

/-- Handler of 0xFX15. -/
def vxToDelay (c : Chip8) : Chip8 :=
  (c.setCpu { c.cpu with DelayTimer := c.cpu.V c.opX }).advance 2

/-- Handler of 0xFX18. -/
def vxToSound (c : Chip8) : Chip8 :=
  (c.setCpu { c.cpu with SoundTimer := c.cpu.V c.opX }).advance 2

/-- Handler of 0xFX1E. -/
def addVxToI (c : Chip8) : Chip8 :=
  (c.setCpu { c.cpu with I := (c.cpu.I + c.cpu.V c.opX) % 65536 }).advance 2

/-- Handler of 0xFX29. -/
def setCharToI (c : Chip8) : Chip8 :=
  (c.setCpu { c.cpu with I := (c.cpu.V c.opX * 5) % 65536 }).advance 2

/-- The statement `c.ram[addr] = v`, with `addr` formed in `uint16`. -/
def setRam (c : Chip8) (addr v : Nat) : Option Chip8 :=
  if addr % 65536 < RamSize then some { c with ram := store c.ram (addr % 65536) v } else none

/-- Handler of 0xFX33. -/
def vxToRAM (c : Chip8) : Option Chip8 :=
  match c.setRam c.cpu.I (c.cpu.V c.opX / 100) with
  | none => none
  | some c =>
    match c.setRam (c.cpu.I + 1) ((c.cpu.V c.opX / 10) % 10) with
    | none => none
    | some c =>
      match c.setRam (c.cpu.I + 2) ((c.cpu.V c.opX % 100) % 10) with
      | none => none
      | some c => some (c.advance 2)

/-- Body of the loop of `regDump`. -/
def regDumpStep (c : Chip8) (acc : Nat) : Option Chip8 :=
  c.setRam (c.cpu.I + acc) (c.cpu.V acc)

/-- Handler of 0xFX55: `for acc := uint16(0); acc <= x; acc++`. -/
def regDump (c : Chip8) : Option Chip8 :=
  let x := c.opX
  match (List.range (x + 1)).foldlM regDumpStep c with
  | some c => some (c.advance 2)
  | none => none

/-- Body of the loop of `regLoad`. -/
def regLoadStep (c : Chip8) (acc : Nat) : Option Chip8 :=
  if (c.cpu.I + acc) % 65536 < RamSize then
    some (c.setV acc (c.ram ((c.cpu.I + acc) % 65536)))
  else none

/-- Handler of 0xFX65: `for acc := uint16(0); acc <= x; acc++`. -/
def regLoad (c : Chip8) : Option Chip8 :=
  let x := c.opX
  match (List.range (x + 1)).foldlM regLoadStep c with
  | some c => some (c.advance 2)
  | none => none

/-- Method `zxSwitch`. -/
def zxSwitch (c : Chip8) : Outcome :=
  if c.opcode &&& 0xF00F = 0x0000 then Outcome.ok c.clearScreen
  else if c.opcode &&& 0xF00F = 0x000E then Outcome.ofOption c.returnFromSubroutine
  else if c.opcode &&& 0xF000 = 0x0000 then Outcome.ok c.callRCA1802
  else c.unknowOpCodeErr

/-- Method `eightxSwitch`. -/
def eightxSwitch (c : Chip8) : Outcome :=
  if c.opcode &&& 0x000F = 0x0000 then Outcome.ok c.assign
  else if c.opcode &&& 0x000F = 0x0001 then Outcome.ok c.or
  else if c.opcode &&& 0x000F = 0x0002 then Outcome.ok c.and
  else if c.opcode &&& 0x000F = 0x0003 then Outcome.ok c.xor
  else if c.opcode &&& 0x000F = 0x0004 then Outcome.ok c.add
  else if c.opcode &&& 0x000F = 0x0005 then Outcome.ok c.sub
  else if c.opcode &&& 0x000F = 0x0006 then Outcome.ok c.shiftr
  else if c.opcode &&& 0x000F = 0x0007 then Outcome.ok c.vxSubVy
  else if c.opcode &&& 0x000F = 0x000E then Outcome.ok c.shiftl
  else c.unknowOpCodeErr

/-- Method `exSwitch`. -/
def exSwitch (c : Chip8) : Outcome :=
  if c.opcode &&& 0x000F = 0x000E then Outcome.ofOption c.skipIfKeyPressed
  else if c.opcode &&& 0x000F = 0x0001 then Outcome.ofOption c.skipIfKeyNotPressed
  else c.unknowOpCodeErr

/-- Method `fxSwitch`. -/
def fxSwitch (c : Chip8) : Outcome :=
  if c.opcode &&& 0x00FF = 0x0007 then Outcome.ok c.delayToVx
  else if c.opcode &&& 0x00FF = 0x000A then Outcome.ok c.waitForInput
  else if c.opcode &&& 0x00FF = 0x0015 then Outcome.ok c.vxToDelay
  else if c.opcode &&& 0x00FF = 0x0018 then Outcome.ok c.vxToSound
  else if c.opcode &&& 0x00FF = 0x001E then Outcome.ok c.addVxToI
  else if c.opcode &&& 0x00FF = 0x0029 then Outcome.ok c.setCharToI
  else if c.opcode &&& 0x00FF = 0x0033 then Outcome.ofOption c.vxToRAM
  else if c.opcode &&& 0x00FF = 0x0055 then Outcome.ofOption c.regDump
  else if c.opcode &&& 0x00FF = 0x0065 then Outcome.ofOption c.regLoad
  else c.unknowOpCodeErr

/-- Method `decodeExecute`: the lookup `c.ophandlers[c.opcode & 0xF000]` in the
table filled by `New`, followed by the call. A key absent from the table yields
a nil function, whose call is a runtime fault. -/
def decodeExecute (rnd : Nat) (c : Chip8) : Outcome :=
  let key := c.opcode &&& 0xF000
  if key = 0x0000 then c.zxSwitch
  else if key = 0x1000 then Outcome.ok c.jump
  else if key = 0x2000 then Outcome.ofOption c.callFunc
  else if key = 0x3000 then Outcome.ok c.skipIf
  else if key = 0x4000 then Outcome.ok c.skipIfNot
  else if key = 0x5000 then Outcome.ok c.skipIfReg
  else if key = 0x6000 then Outcome.ok c.setRegister
  else if key = 0x7000 then Outcome.ok c.addRegister
  else if key = 0x8000 then c.eightxSwitch
  else if key = 0x9000 then Outcome.ok c.skipIfNotReg
  else if key = 0xa000 then Outcome.ok c.setIndex
  else if key = 0xb000 then Outcome.ok c.jumpToVZPlus
  else if key = 0xc000 then Outcome.ok (c.rand rnd)
  else if key = 0xd000 then Outcome.ofOption c.draw
  else if key = 0xe000 then c.exSwitch
  else if key = 0xf000 then c.fxSwitch
  else Outcome.fault

/-- Timer part of `Tick`, run after a handler returned nil. -/
def tickTimers (c : Chip8) : Chip8 :=
  let c := if c.cpu.DelayTimer > 0 then
      c.setCpu { c.cpu with DelayTimer := c.cpu.DelayTimer - 1 } else c
  if c.cpu.SoundTimer > 0 then
    let c := c.setCpu { c.cpu with SoundTimer := c.cpu.SoundTimer - 1 }
    { c with tone := c.tone.map (fun _ => true) }
  else
    { c with tone := c.tone.map (fun _ => false) }

/-- Method `Tick`; `rnd` is the value `rand.Intn(256)` returns if it is called
during this tick. -/
def Tick (rnd : Nat) (c : Chip8) : Outcome :=
  match c.fetch with
  | none => Outcome.fault
  | some c =>
    match c.decodeExecute rnd with
    | Outcome.fault => Outcome.fault
    | Outcome.err raw c => Outcome.err raw c
    | Outcome.ok c => Outcome.ok c.tickTimers

end Chip8

/-- Run `n` ticks, stopping at the first error or fault; `rnd k` is the random
byte available to tick `k`. -/
def runTicks (rnd : Nat → Nat) : Nat → Chip8 → Outcome
  | 0, c => Outcome.ok c
  | n + 1, c =>
    match c.Tick (rnd 0) with
    | Outcome.ok c => runTicks (fun k => rnd (k + 1)) n c
    | o => o

/-! ## Concrete machines used below -/

/-- Machine with the given bytes loaded at 0x200, register file `v` and key
latch `k`; everything else as constructed by `New`. The font table is left
empty: no instruction executed on these machines reads the font region. -/
def machine (program : List Nat) (v k : Nat → Nat) : Chip8 :=
  { Chip8.New [] program with cpu := { CPU.New with V := v }, keys := k }

/-- Registers `V0 = 0xFF`, `V1 = 0x01`, next instruction `8014` (V0 += V1). -/
def addCarryMachine : Chip8 :=
  machine [0x80, 0x14] (store (store (fun _ => 0) 0 0xFF) 1 0x01) (fun _ => 0)

/-- Registers `V0 = 5`, `VF = 3`, next instruction `80F5` (V0 -= VF). -/
def subFlagOperandMachine : Chip8 :=
  machine [0x80, 0xF5] (store (store (fun _ => 0) 0 5) 0xF 3) (fun _ => 0)

/-- Register `VF = 1`, next instruction `8F06` (VF >>= 1). -/
def shiftrFlagMachine : Chip8 :=
  machine [0x8F, 0x06] (store (fun _ => 0) 0xF 1) (fun _ => 0)

/-- Register `VF = 0x80`, next instruction `8F0E` (VF <<= 1). -/
def shiftlFlagMachine : Chip8 :=
  machine [0x8F, 0x0E] (store (fun _ => 0) 0xF 0x80) (fun _ => 0)

/-- Registers `V0 = 7`, `V1 = 9`, next instruction `8015` (V0 -= V1). -/
def subMachine : Chip8 :=
  machine [0x80, 0x15] (store (store (fun _ => 0) 0 7) 1 9) (fun _ => 0)

/-- Register `V3 = 0x81`, next instruction `8306` (V3 >>= 1). -/
def shiftrMachine : Chip8 :=
  machine [0x83, 0x06] (store (fun _ => 0) 3 0x81) (fun _ => 0)

/-- Register `V3 = 0x81`, next instruction `830E` (V3 <<= 1). -/
def shiftlMachine : Chip8 :=
  machine [0x83, 0x0E] (store (fun _ => 0) 3 0x81) (fun _ => 0)

/-- Keys 0 and 1 pressed, next instruction `F00A` (wait for a key into V0). -/
def twoKeysMachine : Chip8 :=
  machine [0xF0, 0x0A] (fun _ => 0) (store (store (fun _ => 0) 0 1) 1 1)

/-- Machine `c` with the flag register `VF` set to `f` and the framebuffer
replaced by `d`: the only parts of the machine the loops of `draw` write. -/
def Chip8.withPixels (c : Chip8) (f : Nat) (d : Nat → Nat) : Chip8 :=
  { c.setV 0xF f with display := d }

/-- Sprite bit tested by `draw` for row `r`, column `col`: the row byte is
`ram[I + r]`, the mask is `0b10000000 >> col`. -/
def spriteBit (ram : Nat → Nat) (I r col : Nat) : Prop :=
  ram (I + r) &&& (0b10000000 >>> col) ≠ 0

instance spriteBit.decidable (ram : Nat → Nat) (I r col : Nat) :
    Decidable (spriteBit ram I r col) :=
  inferInstanceAs (Decidable (ram (I + r) &&& (0b10000000 >>> col) ≠ 0))

/-- Framebuffer index written by `draw` for row `r`, column `col` of a sprite
drawn at `(x, y)`. -/
def cellOf (x y r col : Nat) : Nat :=
  (x + col) % DisplayWidth + (y + r) % DisplayHeight * DisplayWidth

/-- The cells targeted by a sprite, in the words of the claim: cell `p` is
targeted by the `n`-row sprite stored at `I`, drawn at `(x, y)`, when for some
row `r < n` and column `c < 8` bit `7 - c` of `ram[I + r]` is set and
`p = ((x + c) mod 64) + 64 * ((y + r) mod 32)`. -/
def Targets (ram : Nat → Nat) (I x y n p : Nat) : Prop :=
  ∃ r, r < n ∧ ∃ c, c < 8 ∧ (ram (I + r)).testBit (7 - c) = true ∧
    p = (x + c) % 64 + 64 * ((y + r) % 32)

instance Targets.decidable (ram : Nat → Nat) (I x y n p : Nat) :
    Decidable (Targets ram I x y n p) :=
  inferInstanceAs (Decidable (∃ r, r < n ∧ ∃ c, c < 8 ∧ (ram (I + r)).testBit (7 - c) = true ∧
    p = (x + c) % 64 + 64 * ((y + r) % 32)))

/-- Registers `V0 = 62`, `V1 = 31`, index `I = 0x200`, a cleared framebuffer and
the program `D012 D012`: the two-row sprite read at `I` is the program itself
(rows `0xD0`, `0x12`), drawn at `(62, 31)` so that it wraps on both axes. -/
def drawMachine : Chip8 :=
  { Chip8.New [] [0xD0, 0x12, 0xD0, 0x12] with
    cpu := { CPU.New with V := store (store (fun _ => 0) 0 62) 1 31, I := 0x200 } }

/-- Program `2204 0000 00EE` on a fresh machine: a call to 0x204, where a
return is stored. -/
def callReturnMachine : Chip8 :=
  machine [0x22, 0x04, 0x00, 0x00, 0x00, 0xEE] (fun _ => 0) (fun _ => 0)

/-- Registers `V0..V2 = 0x11, 0x22, 0x33`, index `I = 0x300`, program
`F255 F265` (dump `V0..V2` at `I`, then load them back). -/
def dumpMachine : Chip8 :=
  { Chip8.New [] [0xF2, 0x55, 0xF2, 0x65] with
    cpu := { CPU.New with
      V := store (store (store (fun _ => 0) 0 0x11) 1 0x22) 2 0x33, I := 0x300 } }

/-- Machine `c` with every register overwritten by `0xEE`. -/
def clobberRegisters (c : Chip8) : Chip8 :=
  c.setCpu { c.cpu with V := fun _ => 0xEE }

/-- Register `V4 = 235`, index `I = 0x300`, next instruction `F433` (BCD of
`V4` at `I`). -/
def bcdMachine : Chip8 :=
  { Chip8.New [] [0xF4, 0x33] with
    cpu := { CPU.New with V := store (fun _ => 0) 4 235, I := 0x300 } }

/-- Every cell of a framebuffer is 0 or 1. -/
def Binary (d : Nat → Nat) : Prop :=
  ∀ p, d p = 0 ∨ d p = 1

/-- Machine `c'` has the timers of `c`, and a framebuffer whose cells are 0 or
1 if those of `c` are. -/
def Chip8.Keeps (c c' : Chip8) : Prop :=
  c'.cpu.DelayTimer = c.cpu.DelayTimer ∧ c'.cpu.SoundTimer = c.cpu.SoundTimer ∧
    (Binary c.display → Binary c'.display)

/-- Machines reachable from `New fontMap program` by the methods of `Chip8`:
ticks (returning nil or an error), `SetKey`, `SetAudio` and `CheckDraw`. -/
inductive Reachable (fontMap program : List Nat) : Chip8 → Prop where
  | init : Reachable fontMap program (Chip8.New fontMap program)
  | tick (rnd : Nat) (c c' : Chip8) :
      Reachable fontMap program c → c.Tick rnd = Outcome.ok c' → Reachable fontMap program c'
  | tickErr (rnd raw : Nat) (c c' : Chip8) :
      Reachable fontMap program c → c.Tick rnd = Outcome.err raw c' →
      Reachable fontMap program c'
  | setKey (k : Nat) (s : Bool) (c c' : Chip8) :
      Reachable fontMap program c → c.SetKey k s = some c' → Reachable fontMap program c'
  | setAudio (c : Chip8) : Reachable fontMap program c → Reachable fontMap program c.SetAudio
  | checkDraw (c : Chip8) :
      Reachable fontMap program c → Reachable fontMap program c.CheckDraw.2

/-- Both timers at 5, program `1200` (a jump to its own address 0x200). -/
def timerMachine : Chip8 :=
  { Chip8.New [] [0x12, 0x00] with
    cpu := { CPU.New with DelayTimer := 5, SoundTimer := 5 } }

/-- The machine `timerMachine` after `k` ticks. -/
def timerStates (k : Nat) : Chip8 :=
  ((runTicks (fun _ => 0) k timerMachine).state?).getD timerMachine

/-- Register `V0 = 1`, next instruction `F029` (point `I` at the glyph of the
digit in `V0`). -/
def glyphMachine : Chip8 :=
  machine [0xF0, 0x29] (store (fun _ => 0) 0 1) (fun _ => 0)

/-- A program of 3489 bytes `0xAA`, one byte more than fits between the load
offset 0x200 and the end of the 4000-byte memory. -/
def oversizeProgram : List Nat :=
  List.replicate 3489 0xAA

/-- Program `1FFF` on a fresh machine: a jump to 0xFFF. -/
def jumpHighMachine : Chip8 :=
  machine [0x1F, 0xFF] (fun _ => 0) (fun _ => 0)

/-- Program `A200 D001 00E0` on a fresh machine: point `I` at the program, draw
its first byte `0xA2` as a one-row sprite at `(0, 0)`, then clear the screen. -/
def clearAfterDrawMachine : Chip8 :=
  Chip8.New [] [0xA2, 0x00, 0xD0, 0x01, 0x00, 0xE0]

/-- Program `000E` on a fresh machine: an opcode of the 0NNN family that is
neither `00E0` nor `00EE`. -/
def machineCodeCallMachine : Chip8 :=
  machine [0x00, 0x0E] (fun _ => 0) (fun _ => 0)

/-- Fresh machine with a chain of calls: the instruction at `0x200 + 2k` is a
call to `0x200 + 2(k + 1)` for `k = 0..14` (15 nested calls reaching 0x21E),
the instruction at 0x21E is `2222`, a call to 0x222, and `00EE` is stored at
0x222. -/
def deepCallMachine : Chip8 :=
  Chip8.New []
    [0x22, 0x02, 0x22, 0x04, 0x22, 0x06, 0x22, 0x08, 0x22, 0x0A, 0x22, 0x0C, 0x22, 0x0E,
     0x22, 0x10, 0x22, 0x12, 0x22, 0x14, 0x22, 0x16, 0x22, 0x18, 0x22, 0x1A, 0x22, 0x1C,
     0x22, 0x1E, 0x22, 0x22, 0x00, 0x00, 0x00, 0xEE]

/-! ## Bit-mask decoding -/

theorem and_shiftLeft_mask (x m k : Nat) : x &&& (m <<< k) = ((x >>> k) &&& m) <<< k := by
  apply Nat.eq_of_testBit_eq
  intro i
  simp only [Nat.testBit_and, Nat.testBit_shiftLeft, Nat.testBit_shiftRight]
  by_cases h : k ≤ i
  · simp [h, Nat.add_sub_cancel' h]
  · simp [h]

theorem and_nibble (x k : Nat) : x &&& (0xF <<< k) = (x / 2 ^ k % 16) * 2 ^ k := by
  rw [and_shiftLeft_mask, Nat.shiftRight_eq_div_pow, Nat.shiftLeft_eq]
  have := Nat.and_pow_two_sub_one_eq_mod (x / 2 ^ k) 4
  norm_num at this
  rw [this]

theorem and_F000 (x : Nat) : x &&& 0xF000 = (x / 4096 % 16) * 4096 := by
  have := and_nibble x 12
  norm_num at this
  simpa using this

theorem and_0F00 (x : Nat) : x &&& 0x0F00 = (x / 256 % 16) * 256 := by
  have := and_nibble x 8
  norm_num at this
  simpa using this

theorem and_00F0 (x : Nat) : x &&& 0x00F0 = (x / 16 % 16) * 16 := by
  have := and_nibble x 4
  norm_num at this
  simpa using this

theorem and_000F (x : Nat) : x &&& 0x000F = x % 16 := by
  have := Nat.and_pow_two_sub_one_eq_mod x 4
  norm_num at this
  simpa using this

theorem and_00FF (x : Nat) : x &&& 0x00FF = x % 256 := by
  have := Nat.and_pow_two_sub_one_eq_mod x 8
  norm_num at this
  simpa using this

theorem and_0FFF (x : Nat) : x &&& 0x0FFF = x % 4096 := by
  have := Nat.and_pow_two_sub_one_eq_mod x 12
  norm_num at this
  simpa using this

theorem and_F00F (x : Nat) : x &&& 0xF00F = (x / 4096 % 16) * 4096 + x % 16 := by
  have h : (0xF00F : Nat) = 0xF000 ||| 0x000F := by decide
  rw [h, Nat.and_or_distrib_left, and_F000, and_000F]
  have := Nat.mul_add_lt_is_or (i := 12) (b := x % 16) (by omega) (x / 4096 % 16)
  norm_num at this
  rw [Nat.mul_comm] at this
  exact this.symm

theorem and_one (x : Nat) : x &&& 0x1 = x % 2 :=
  Nat.and_one_is_mod x

theorem high_bit (a : Nat) (h : a < 256) : (a &&& 0x80) >>> 7 = a >>> 7 := by
  have h1 : (0x80 : Nat) = 1 <<< 7 := by decide
  rw [h1, and_shiftLeft_mask, Nat.shiftLeft_eq, Nat.shiftRight_eq_div_pow,
    Nat.shiftRight_eq_div_pow, and_one]
  norm_num
  omega

namespace Chip8

theorem opX_eq (c : Chip8) : c.opX = c.opcode / 256 % 16 := by
  unfold opX
  rw [and_0F00, Nat.shiftRight_eq_div_pow]
  norm_num

theorem opY_eq (c : Chip8) : c.opY = c.opcode / 16 % 16 := by
  unfold opY
  rw [and_00F0, Nat.shiftRight_eq_div_pow]
  norm_num

/-! ## Field lemmas -/

@[simp] theorem store_same (a : Nat → Nat) (i v : Nat) : store a i v i = v := by
  simp [store]

theorem store_other (a : Nat → Nat) (i v j : Nat) (h : j ≠ i) : store a i v j = a j := by
  simp [store, h]

@[simp] theorem fetched_cpu (c : Chip8) : c.fetched.cpu = c.cpu := rfl
@[simp] theorem fetched_ram (c : Chip8) : c.fetched.ram = c.ram := rfl
@[simp] theorem fetched_display (c : Chip8) : c.fetched.display = c.display := rfl
@[simp] theorem fetched_keys (c : Chip8) : c.fetched.keys = c.keys := rfl
@[simp] theorem fetched_shouldDraw (c : Chip8) : c.fetched.shouldDraw = c.shouldDraw := rfl
@[simp] theorem fetched_tone (c : Chip8) : c.fetched.tone = c.tone := rfl
@[simp] theorem fetched_opcode (c : Chip8) : c.fetched.opcode = c.opcodeAt := rfl

@[simp] theorem setV_V (c : Chip8) (i v : Nat) : (c.setV i v).cpu.V = store c.cpu.V i v := rfl
@[simp] theorem setV_PC (c : Chip8) (i v : Nat) : (c.setV i v).cpu.PC = c.cpu.PC := rfl
@[simp] theorem setV_I (c : Chip8) (i v : Nat) : (c.setV i v).cpu.I = c.cpu.I := rfl
@[simp] theorem setV_opcode (c : Chip8) (i v : Nat) : (c.setV i v).opcode = c.opcode := rfl
@[simp] theorem setV_opX (c : Chip8) (i v : Nat) : (c.setV i v).opX = c.opX := rfl
@[simp] theorem setV_opY (c : Chip8) (i v : Nat) : (c.setV i v).opY = c.opY := rfl
@[simp] theorem setV_ram (c : Chip8) (i v : Nat) : (c.setV i v).ram = c.ram := rfl
@[simp] theorem setV_display (c : Chip8) (i v : Nat) : (c.setV i v).display = c.display := rfl
@[simp] theorem setV_keys (c : Chip8) (i v : Nat) : (c.setV i v).keys = c.keys := rfl
@[simp] theorem setV_shouldDraw (c : Chip8) (i v : Nat) :
    (c.setV i v).shouldDraw = c.shouldDraw := rfl

@[simp] theorem advance_V (c : Chip8) (n : Nat) : (c.advance n).cpu.V = c.cpu.V := rfl
@[simp] theorem advance_PC (c : Chip8) (n : Nat) :
    (c.advance n).cpu.PC = (c.cpu.PC + n) % 65536 := rfl
@[simp] theorem advance_I (c : Chip8) (n : Nat) : (c.advance n).cpu.I = c.cpu.I := rfl
@[simp] theorem advance_opcode (c : Chip8) (n : Nat) : (c.advance n).opcode = c.opcode := rfl
@[simp] theorem advance_opX (c : Chip8) (n : Nat) : (c.advance n).opX = c.opX := rfl
@[simp] theorem advance_opY (c : Chip8) (n : Nat) : (c.advance n).opY = c.opY := rfl
@[simp] theorem advance_ram (c : Chip8) (n : Nat) : (c.advance n).ram = c.ram := rfl
@[simp] theorem advance_display (c : Chip8) (n : Nat) : (c.advance n).display = c.display := rfl
@[simp] theorem advance_keys (c : Chip8) (n : Nat) : (c.advance n).keys = c.keys := rfl
@[simp] theorem advance_shouldDraw (c : Chip8) (n : Nat) :
    (c.advance n).shouldDraw = c.shouldDraw := rfl

@[simp] theorem tickTimers_V (c : Chip8) : c.tickTimers.cpu.V = c.cpu.V := by
  unfold tickTimers setCpu
  dsimp only
  split_ifs <;> rfl

@[simp] theorem tickTimers_PC (c : Chip8) : c.tickTimers.cpu.PC = c.cpu.PC := by
  unfold tickTimers setCpu
  dsimp only
  split_ifs <;> rfl

@[simp] theorem tickTimers_I (c : Chip8) : c.tickTimers.cpu.I = c.cpu.I := by
  unfold tickTimers setCpu
  dsimp only
  split_ifs <;> rfl

@[simp] theorem tickTimers_SP (c : Chip8) : c.tickTimers.cpu.SP = c.cpu.SP := by
  unfold tickTimers setCpu
  dsimp only
  split_ifs <;> rfl

@[simp] theorem tickTimers_Stack (c : Chip8) : c.tickTimers.cpu.Stack = c.cpu.Stack := by
  unfold tickTimers setCpu
  dsimp only
  split_ifs <;> rfl

@[simp] theorem tickTimers_ram (c : Chip8) : c.tickTimers.ram = c.ram := by
  unfold tickTimers setCpu
  dsimp only
  split_ifs <;> rfl

@[simp] theorem tickTimers_display (c : Chip8) : c.tickTimers.display = c.display := by
  unfold tickTimers setCpu
  dsimp only
  split_ifs <;> rfl

@[simp] theorem tickTimers_keys (c : Chip8) : c.tickTimers.keys = c.keys := by
  unfold tickTimers setCpu
  dsimp only
  split_ifs <;> rfl

@[simp] theorem tickTimers_shouldDraw (c : Chip8) : c.tickTimers.shouldDraw = c.shouldDraw := by
  unfold tickTimers setCpu
  dsimp only
  split_ifs <;> rfl

/-! ## Fetch and dispatch -/

theorem fetch_eq (s : Chip8) (h : s.cpu.PC + 1 < RamSize) : s.fetch = some s.fetched := by
  have h1 : s.cpu.PC < RamSize := by omega
  have h2 : (s.cpu.PC + 1) % 65536 < RamSize := by
    unfold RamSize at *
    omega
  simp [fetch, fetched, h1, h2]

theorem Tick_ok_of (rnd : Nat) (s c : Chip8) (h : s.cpu.PC + 1 < RamSize)
    (hd : s.fetched.decodeExecute rnd = Outcome.ok c) :
    s.Tick rnd = Outcome.ok c.tickTimers := by
  simp [Tick, fetch_eq s h, hd]

theorem Tick_fault_of (rnd : Nat) (s : Chip8) (h : s.cpu.PC + 1 < RamSize)
    (hd : s.fetched.decodeExecute rnd = Outcome.fault) :
    s.Tick rnd = Outcome.fault := by
  simp [Tick, fetch_eq s h, hd]

theorem Tick_err_of (rnd : Nat) (s c : Chip8) (raw : Nat) (h : s.cpu.PC + 1 < RamSize)
    (hd : s.fetched.decodeExecute rnd = Outcome.err raw c) :
    s.Tick rnd = Outcome.err raw c := by
  simp [Tick, fetch_eq s h, hd]

/-! ## Arithmetic handlers in normal form -/

theorem add_eq (c : Chip8) :
    c.add = ((c.setV 0xF 0).setV c.opX
      ((store c.cpu.V 0xF 0 c.opX + store c.cpu.V 0xF 0 c.opY) % 256)).advance 2 := by
  unfold add
  have h : ¬ (c.cpu.V c.opX + c.cpu.V c.opY) % 256 > 0xFF := by omega
  simp only [h, if_false]
  rfl

theorem sub_eq (c : Chip8) :
    c.sub = ((c.setV 0xF (if c.cpu.V c.opX ≥ c.cpu.V c.opY then 1 else 0)).setV c.opX
      (sub8 (store c.cpu.V 0xF (if c.cpu.V c.opX ≥ c.cpu.V c.opY then 1 else 0) c.opX)
        (store c.cpu.V 0xF (if c.cpu.V c.opX ≥ c.cpu.V c.opY then 1 else 0) c.opY))).advance 2 := by
  unfold sub
  split_ifs <;> rfl

/-- For every machine and operands, the handler of 8XY4 leaves `VF = 0` unless
`X` is `VF` itself: the carry is never reported. -/
theorem add_flag_zero (c : Chip8) (h : c.opX ≠ 0xF) : c.add.cpu.V 0xF = 0 := by
  rw [add_eq]
  simp [store_other _ _ _ _ (Ne.symm h)]

end Chip8

/-! ## Register arithmetic (8XY4, 8XY5, 8XY6, 8XYE) -/

namespace Chip8

/-- C1 (8XY4, carry flag). On the machine with `V0 = 0xFF`, `V1 = 0x01` whose next
instruction is `8014`, the tick succeeds and leaves `V0 = (0xFF + 0x01) mod 256 = 0`
but `VF = 0`, although the sum 256 exceeds 255: the handler compares the
already wrapped 8-bit sum with 0xFF. -/
theorem add_carry_flag_lost :
    addCarryMachine.cpu.V 0 = 0xFF ∧ addCarryMachine.cpu.V 1 = 0x01 ∧
    addCarryMachine.opcodeAt = 0x8014 ∧
    ∃ s', addCarryMachine.Tick 0 = Outcome.ok s' ∧ s'.cpu.V 0 = 0 ∧ s'.cpu.V 0xF = 0 :=
  ⟨by decide, by decide, by decide, _, rfl, by decide, by decide⟩

/-- C2 as stated fails when `Y` is `VF`: with `V0 = 5`, `VF = 3` and next
instruction `80F5`, the tick succeeds and leaves `V0 = 4`, which is not
`(5 - 3) mod 256`; the flag is written first and then used as the subtrahend,
so `V0 = 5 - 1`. -/
theorem sub_flag_operand_counterexample :
    subFlagOperandMachine.cpu.V 0 = 5 ∧ subFlagOperandMachine.cpu.V 0xF = 3 ∧
    subFlagOperandMachine.opcodeAt = 0x80F5 ∧
    ∃ s', subFlagOperandMachine.Tick 0 = Outcome.ok s' ∧ s'.cpu.V 0 = 4 ∧
      (s'.cpu.V 0 : Int) ≠ ((5 : Int) - 3) % 256 :=
  ⟨by decide, by decide, by decide, _, rfl, by decide, by decide⟩

/-- C2, amended (8XY5 with `X` and `Y` other than `VF`). For registers `X`, `Y`
below 0xF holding values `a`, `b` (8-bit values in particular), a tick whose
fetched opcode is `8XY5` succeeds and leaves `V[X] = (a - b) mod 256`, `VF = 1`
if and only if `a ≥ b`, and `VF = 0` otherwise. -/
theorem sub_spec (rnd : Nat) (s : Chip8) (X Y : Nat) (hX : X < 0xF) (hY : Y < 0xF)
    (hpc : s.cpu.PC + 1 < RamSize) (hop : s.opcodeAt = 0x8005 + 0x100 * X + 0x10 * Y) :
    ∃ s', s.Tick rnd = Outcome.ok s' ∧
      (s'.cpu.V X : Int) = ((s.cpu.V X : Int) - (s.cpu.V Y : Int)) % 256 ∧
      (s'.cpu.V 0xF = 1 ↔ s.cpu.V X ≥ s.cpu.V Y) ∧
      (¬ s.cpu.V X ≥ s.cpu.V Y → s'.cpu.V 0xF = 0) := by
  have hfam : s.opcodeAt &&& 0xF000 = 0x8000 := by
    rw [and_F000, hop]
    omega
  have hlow : s.opcodeAt &&& 0x000F = 0x0005 := by
    rw [and_000F, hop]
    omega
  have hx : s.fetched.opX = X := by
    rw [opX_eq, fetched_opcode, hop]
    omega
  have hy : s.fetched.opY = Y := by
    rw [opY_eq, fetched_opcode, hop]
    omega
  have hXF : X ≠ 15 := by omega
  have hYF : Y ≠ 15 := by omega
  have hd : s.fetched.decodeExecute rnd = Outcome.ok s.fetched.sub := by
    simp [decodeExecute, eightxSwitch, hfam, hlow]
  refine ⟨s.fetched.sub.tickTimers, Tick_ok_of rnd s _ hpc hd, ?_, ?_, ?_⟩
  · rw [sub_eq]
    simp only [tickTimers_V, advance_V, setV_V, hx, hy, store_same, fetched_cpu,
      store_other _ _ _ _ hXF, store_other _ _ _ _ hYF, sub8]
    omega
  · rw [sub_eq]
    simp only [tickTimers_V, advance_V, setV_V, hx, hy, store_same, fetched_cpu,
      store_other _ _ _ _ (Ne.symm hXF)]
    split_ifs with h <;> simp [h]
  · intro h
    rw [sub_eq]
    simp only [tickTimers_V, advance_V, setV_V, hx, hy, store_same, fetched_cpu,
      store_other _ _ _ _ (Ne.symm hXF)]
    simp [h]

/-- Instance of `sub_spec`: `V0 = 7`, `V1 = 9`, opcode `8015`. -/
theorem sub_spec_witness :
    ∃ s', subMachine.Tick 0 = Outcome.ok s' ∧
      (s'.cpu.V 0 : Int) = ((subMachine.cpu.V 0 : Int) - (subMachine.cpu.V 1 : Int)) % 256 ∧
      (s'.cpu.V 0xF = 1 ↔ subMachine.cpu.V 0 ≥ subMachine.cpu.V 1) ∧
      (¬ subMachine.cpu.V 0 ≥ subMachine.cpu.V 1 → s'.cpu.V 0xF = 0) :=
  sub_spec 0 subMachine 0 1 (by decide) (by decide) (by decide) (by decide)

/-- C3 as stated fails when `X` is `VF`: with `VF = 1` and next instruction
`8F06` the tick leaves `VF = 0`, not `1 & 1`, and with `VF = 0x80` and next
instruction `8F0E` it leaves `VF = 2`, not `0x80 >> 7`; the shifted value
overwrites the captured bit. -/
theorem shift_flag_register_counterexample :
    (shiftrFlagMachine.cpu.V 0xF = 1 ∧ shiftrFlagMachine.opcodeAt = 0x8F06 ∧
      ∃ s', shiftrFlagMachine.Tick 0 = Outcome.ok s' ∧ s'.cpu.V 0xF = 0 ∧
        s'.cpu.V 0xF ≠ 1 &&& 1) ∧
    (shiftlFlagMachine.cpu.V 0xF = 0x80 ∧ shiftlFlagMachine.opcodeAt = 0x8F0E ∧
      ∃ s', shiftlFlagMachine.Tick 0 = Outcome.ok s' ∧ s'.cpu.V 0xF = 2 ∧
        s'.cpu.V 0xF ≠ 0x80 >>> 7) :=
  ⟨⟨by decide, by decide, _, rfl, by decide, by decide⟩,
    ⟨by decide, by decide, _, rfl, by decide, by decide⟩⟩

/-- C3, amended (8XY6 and 8XYE with `X` other than `VF`). For a register `X`
below 0xF holding the 8-bit value `a`: a tick whose fetched opcode is `8XY6`
succeeds with `VF = a & 1`, and a tick whose fetched opcode is `8XYE` succeeds
with `VF = a >> 7`. -/
theorem shift_flag_spec (rnd : Nat) (s : Chip8) (X Y : Nat) (hX : X < 0xF) (hY : Y < 16)
    (hpc : s.cpu.PC + 1 < RamSize) (ha : s.cpu.V X < 256) :
    (s.opcodeAt = 0x8006 + 0x100 * X + 0x10 * Y →
      ∃ s', s.Tick rnd = Outcome.ok s' ∧ s'.cpu.V 0xF = s.cpu.V X &&& 1) ∧
    (s.opcodeAt = 0x800E + 0x100 * X + 0x10 * Y →
      ∃ s', s.Tick rnd = Outcome.ok s' ∧ s'.cpu.V 0xF = s.cpu.V X >>> 7) := by
  have hXF : (15 : Nat) ≠ X := by omega
  constructor
  · intro hop
    have hfam : s.opcodeAt &&& 0xF000 = 0x8000 := by
      rw [and_F000, hop]
      omega
    have hlow : s.opcodeAt &&& 0x000F = 0x0006 := by
      rw [and_000F, hop]
      omega
    have hx : s.fetched.opX = X := by
      rw [opX_eq, fetched_opcode, hop]
      omega
    have hd : s.fetched.decodeExecute rnd = Outcome.ok s.fetched.shiftr := by
      simp [decodeExecute, eightxSwitch, hfam, hlow]
    refine ⟨s.fetched.shiftr.tickTimers, Tick_ok_of rnd s _ hpc hd, ?_⟩
    simp [shiftr, hx, store_other _ _ _ _ hXF]
  · intro hop
    have hfam : s.opcodeAt &&& 0xF000 = 0x8000 := by
      rw [and_F000, hop]
      omega
    have hlow : s.opcodeAt &&& 0x000F = 0x000E := by
      rw [and_000F, hop]
      omega
    have hx : s.fetched.opX = X := by
      rw [opX_eq, fetched_opcode, hop]
      omega
    have hd : s.fetched.decodeExecute rnd = Outcome.ok s.fetched.shiftl := by
      simp [decodeExecute, eightxSwitch, hfam, hlow]
    refine ⟨s.fetched.shiftl.tickTimers, Tick_ok_of rnd s _ hpc hd, ?_⟩
    simp [shiftl, hx, store_other _ _ _ _ hXF, high_bit _ ha]

/-- Instance of `shift_flag_spec`: `V3 = 0x81`, opcodes `8306` and `830E`. -/
theorem shift_flag_spec_witness :
    (∃ s', shiftrMachine.Tick 0 = Outcome.ok s' ∧ s'.cpu.V 0xF = shiftrMachine.cpu.V 3 &&& 1) ∧
    (∃ s', shiftlMachine.Tick 0 = Outcome.ok s' ∧ s'.cpu.V 0xF = shiftlMachine.cpu.V 3 >>> 7) :=
  ⟨(shift_flag_spec 0 shiftrMachine 3 0 (by decide) (by decide) (by decide) (by decide)).1
      (by decide),
    (shift_flag_spec 0 shiftlMachine 3 0 (by decide) (by decide) (by decide) (by decide)).2
      (by decide)⟩

end Chip8

/-! ## Unknown opcodes and failed ticks -/

namespace Chip8

/-- C4. Opcodes outside the documented patterns that are nevertheless executed:
on fresh machines (all registers 0, no key pressed) whose next instruction is
`5011`, `9011`, `E00E` or `E001`, the tick returns no error and runs the
handler of `5XY0`, `9XY0`, `EX9E` or `EXA1` (the program counter moves by 4, 2,
2 and 4). -/
theorem undocumented_opcodes_execute :
    ((machine [0x50, 0x11] (fun _ => 0) (fun _ => 0)).opcodeAt = 0x5011 ∧
      ∃ s', (machine [0x50, 0x11] (fun _ => 0) (fun _ => 0)).Tick 0 = Outcome.ok s' ∧
        s'.cpu.PC = 0x204) ∧
    ((machine [0x90, 0x11] (fun _ => 0) (fun _ => 0)).opcodeAt = 0x9011 ∧
      ∃ s', (machine [0x90, 0x11] (fun _ => 0) (fun _ => 0)).Tick 0 = Outcome.ok s' ∧
        s'.cpu.PC = 0x202) ∧
    ((machine [0xE0, 0x0E] (fun _ => 0) (fun _ => 0)).opcodeAt = 0xE00E ∧
      ∃ s', (machine [0xE0, 0x0E] (fun _ => 0) (fun _ => 0)).Tick 0 = Outcome.ok s' ∧
        s'.cpu.PC = 0x202) ∧
    ((machine [0xE0, 0x01] (fun _ => 0) (fun _ => 0)).opcodeAt = 0xE001 ∧
      ∃ s', (machine [0xE0, 0x01] (fun _ => 0) (fun _ => 0)).Tick 0 = Outcome.ok s' ∧
        s'.cpu.PC = 0x204) :=
  ⟨⟨by decide, _, rfl, by decide⟩, ⟨by decide, _, rfl, by decide⟩,
    ⟨by decide, _, rfl, by decide⟩, ⟨by decide, _, rfl, by decide⟩⟩

theorem ofOption_ne_err (o : Option Chip8) (raw : Nat) (c : Chip8) :
    Outcome.ofOption o ≠ Outcome.err raw c := by
  cases o <;> simp [Outcome.ofOption]

theorem ok_ne_err (c : Chip8) (a : Chip8) :
    ∀ raw c', Outcome.ok a = Outcome.err raw c' → raw = c.opcode ∧ c' = c := by
  intro raw c' h
  cases h

theorem fault_ne_err (c : Chip8) :
    ∀ raw c', Outcome.fault = Outcome.err raw c' → raw = c.opcode ∧ c' = c := by
  intro raw c' h
  cases h

theorem ofOption_err (c : Chip8) (o : Option Chip8) :
    ∀ raw c', Outcome.ofOption o = Outcome.err raw c' → raw = c.opcode ∧ c' = c := by
  intro raw c' h
  exact absurd h (ofOption_ne_err _ _ _)

theorem unknowOpCodeErr_err (c : Chip8) :
    ∀ raw c', c.unknowOpCodeErr = Outcome.err raw c' → raw = c.opcode ∧ c' = c := by
  intro raw c' h
  simp only [unknowOpCodeErr, Outcome.err.injEq] at h
  exact ⟨h.1.symm, h.2.symm⟩

theorem ite_err (c : Chip8) (p : Prop) [Decidable p] (a b : Outcome)
    (ha : ∀ raw c', a = Outcome.err raw c' → raw = c.opcode ∧ c' = c)
    (hb : ∀ raw c', b = Outcome.err raw c' → raw = c.opcode ∧ c' = c) :
    ∀ raw c', (if p then a else b) = Outcome.err raw c' → raw = c.opcode ∧ c' = c := by
  intro raw c' h
  split_ifs at h
  · exact ha raw c' h
  · exact hb raw c' h

theorem zxSwitch_err (c : Chip8) :
    ∀ raw c', c.zxSwitch = Outcome.err raw c' → raw = c.opcode ∧ c' = c := by
  unfold zxSwitch
  repeat' first
    | apply ite_err
    | apply ok_ne_err
    | apply ofOption_err
    | apply unknowOpCodeErr_err

theorem eightxSwitch_err (c : Chip8) :
    ∀ raw c', c.eightxSwitch = Outcome.err raw c' → raw = c.opcode ∧ c' = c := by
  unfold eightxSwitch
  repeat' first
    | apply ite_err
    | apply ok_ne_err
    | apply ofOption_err
    | apply unknowOpCodeErr_err

theorem exSwitch_err (c : Chip8) :
    ∀ raw c', c.exSwitch = Outcome.err raw c' → raw = c.opcode ∧ c' = c := by
  unfold exSwitch
  repeat' first
    | apply ite_err
    | apply ok_ne_err
    | apply ofOption_err
    | apply unknowOpCodeErr_err

theorem fxSwitch_err (c : Chip8) :
    ∀ raw c', c.fxSwitch = Outcome.err raw c' → raw = c.opcode ∧ c' = c := by
  unfold fxSwitch
  repeat' first
    | apply ite_err
    | apply ok_ne_err
    | apply ofOption_err
    | apply unknowOpCodeErr_err

/-- An error returned by `decodeExecute` carries the opcode and leaves the
machine as it was. -/
theorem decodeExecute_err (rnd : Nat) (c : Chip8) :
    ∀ raw c', c.decodeExecute rnd = Outcome.err raw c' → raw = c.opcode ∧ c' = c := by
  unfold decodeExecute
  dsimp only
  repeat' first
    | exact zxSwitch_err c
    | exact eightxSwitch_err c
    | exact exSwitch_err c
    | exact fxSwitch_err c
    | exact fault_ne_err c
    | apply ok_ne_err
    | apply ofOption_err
    | apply ite_err

/-- C5 (failed ticks are atomic). Whenever `Tick` returns an error, the error
carries the fetched opcode and the processor state (registers, PC, I, stack,
stack pointer, both timers), memory, framebuffer, dirty flag, key latch and
audio state equal their values before the tick. In particular a machine whose
fetched opcode is `FFFF` returns the error carrying `0xFFFF` with all of these
unchanged. -/
theorem Tick_err_atomic (rnd : Nat) (s : Chip8) :
    (∀ raw s', s.Tick rnd = Outcome.err raw s' →
      raw = s.opcodeAt ∧ s'.cpu = s.cpu ∧ s'.ram = s.ram ∧ s'.display = s.display ∧
        s'.shouldDraw = s.shouldDraw ∧ s'.keys = s.keys ∧ s'.tone = s.tone) ∧
    (s.cpu.PC + 1 < RamSize → s.opcodeAt = 0xFFFF →
      ∃ s', s.Tick rnd = Outcome.err 0xFFFF s' ∧ s'.cpu = s.cpu ∧ s'.ram = s.ram ∧
        s'.display = s.display ∧ s'.shouldDraw = s.shouldDraw ∧ s'.keys = s.keys ∧
        s'.tone = s.tone) := by
  constructor
  · intro raw s' h
    unfold Tick at h
    cases hf : s.fetch with
    | none => simp [hf] at h
    | some c =>
      have hc : c = s.fetched := by
        unfold fetch at hf
        split_ifs at hf
        simp only [Option.some.injEq] at hf
        exact hf.symm
      subst hc
      rw [hf] at h
      dsimp only at h
      cases hd : s.fetched.decodeExecute rnd with
      | ok c2 => simp [hd] at h
      | fault => simp [hd] at h
      | err raw2 c2 =>
        rw [hd] at h
        simp only [Outcome.err.injEq] at h
        obtain ⟨h1, h2⟩ := decodeExecute_err rnd _ _ _ hd
        subst h2
        rw [← h.2, ← h.1, h1]
        exact ⟨rfl, rfl, rfl, rfl, rfl, rfl, rfl⟩
  · intro hpc hop
    have hfam : s.opcodeAt &&& 0xF000 = 0xF000 := by
      rw [hop]
      decide
    have hlow : s.opcodeAt &&& 0x00FF = 0xFF := by
      rw [hop]
      decide
    have hd : s.fetched.decodeExecute rnd = Outcome.err s.opcodeAt s.fetched := by
      simp [decodeExecute, fxSwitch, unknowOpCodeErr, hfam, hlow]
    rw [hop] at hd
    exact ⟨s.fetched, Tick_err_of rnd s _ _ hpc hd, rfl, rfl, rfl, rfl, rfl, rfl⟩

/-- Instance of `Tick_err_atomic`: the fresh machine whose program starts with
the bytes `FF FF`. -/
theorem Tick_err_atomic_witness :
    ∃ s', (machine [0xFF, 0xFF] (fun _ => 0) (fun _ => 0)).Tick 0 = Outcome.err 0xFFFF s' ∧
      s'.cpu = (machine [0xFF, 0xFF] (fun _ => 0) (fun _ => 0)).cpu ∧
      s'.ram = (machine [0xFF, 0xFF] (fun _ => 0) (fun _ => 0)).ram ∧
      s'.display = (machine [0xFF, 0xFF] (fun _ => 0) (fun _ => 0)).display ∧
      s'.shouldDraw = (machine [0xFF, 0xFF] (fun _ => 0) (fun _ => 0)).shouldDraw ∧
      s'.keys = (machine [0xFF, 0xFF] (fun _ => 0) (fun _ => 0)).keys ∧
      s'.tone = (machine [0xFF, 0xFF] (fun _ => 0) (fun _ => 0)).tone :=
  (Tick_err_atomic 0 (machine [0xFF, 0xFF] (fun _ => 0) (fun _ => 0))).2 (by decide)
    (by decide)

/-! ## Wait for key (FX0A) -/

/-- C6. With keys 0 and 1 both pressed and next instruction `F00A` at
`PC = 0x200`, the tick succeeds with `V0 = 1` but `PC = 0x204`: the loop over
the key latch advances the program counter once per pressed key. -/
theorem wait_for_key_advances_per_pressed_key :
    twoKeysMachine.keys 0 = 1 ∧ twoKeysMachine.keys 1 = 1 ∧
    twoKeysMachine.opcodeAt = 0xF00A ∧ twoKeysMachine.cpu.PC = 0x200 ∧
    ∃ s', twoKeysMachine.Tick 0 = Outcome.ok s' ∧ s'.cpu.V 0 = 1 ∧ s'.cpu.PC = 0x204 :=
  ⟨by decide, by decide, by decide, by decide, _, rfl, by decide, by decide⟩

end Chip8

/-! ## Sprite drawing (DXYN) -/

namespace Chip8

theorem withPixels_self (c : Chip8) : c.withPixels (c.cpu.V 0xF) c.display = c := by
  have h : store c.cpu.V 0xF (c.cpu.V 0xF) = c.cpu.V := by
    funext j
    unfold store
    split_ifs with hj
    · rw [hj]
    · rfl
  unfold withPixels setV
  rw [h]

@[simp] theorem withPixels_withPixels (c : Chip8) (f g : Nat) (d e : Nat → Nat) :
    (c.withPixels f d).withPixels g e = c.withPixels g e := by
  have h : store (store c.cpu.V 0xF f) 0xF g = store c.cpu.V 0xF g := by
    funext j
    unfold store
    split_ifs <;> rfl
  unfold withPixels setV
  simp only [h]

@[simp] theorem withPixels_display (c : Chip8) (f : Nat) (d : Nat → Nat) :
    (c.withPixels f d).display = d := rfl

@[simp] theorem withPixels_flag (c : Chip8) (f : Nat) (d : Nat → Nat) :
    (c.withPixels f d).cpu.V 0xF = f := by
  simp [withPixels]

theorem withPixels_V (c : Chip8) (f : Nat) (d : Nat → Nat) (i : Nat) (h : i ≠ 0xF) :
    (c.withPixels f d).cpu.V i = c.cpu.V i := by
  simp [withPixels, store_other _ _ _ _ h]

@[simp] theorem withPixels_ram (c : Chip8) (f : Nat) (d : Nat → Nat) :
    (c.withPixels f d).ram = c.ram := rfl

@[simp] theorem withPixels_I (c : Chip8) (f : Nat) (d : Nat → Nat) :
    (c.withPixels f d).cpu.I = c.cpu.I := rfl

@[simp] theorem withPixels_PC (c : Chip8) (f : Nat) (d : Nat → Nat) :
    (c.withPixels f d).cpu.PC = c.cpu.PC := rfl

@[simp] theorem withPixels_opcode (c : Chip8) (f : Nat) (d : Nat → Nat) :
    (c.withPixels f d).opcode = c.opcode := rfl

@[simp] theorem withPixels_shouldDraw (c : Chip8) (f : Nat) (d : Nat → Nat) :
    (c.withPixels f d).shouldDraw = c.shouldDraw := rfl

theorem setV_flag_eq (c : Chip8) (f : Nat) : c.setV 0xF f = c.withPixels f c.display := rfl

/-- One step of the inner loop, on the flag and the framebuffer. -/
theorem drawPixel_withPixels (x y r pixel : Nat) (c : Chip8) (f : Nat) (d : Nat → Nat)
    (col : Nat) :
    drawPixel x y r pixel (c.withPixels f d) col =
      if pixel &&& (0b10000000 >>> col) ≠ 0 then
        c.withPixels (if d (cellOf x y r col) = 1 then 1 else f)
          (store d (cellOf x y r col) (d (cellOf x y r col) ^^^ 1))
      else c.withPixels f d := by
  unfold drawPixel
  by_cases h1 : pixel &&& (0b10000000 >>> col) ≠ 0
  · rw [if_pos h1, if_pos h1]
    dsimp only
    by_cases h2 : d (cellOf x y r col) = 1
    · have h2' : (c.withPixels f d).display
          ((x + col) % DisplayWidth + (y + r) % DisplayHeight * DisplayWidth) = 1 := h2
      rw [if_pos h2', if_pos h2, setV_flag_eq, withPixels_withPixels]
      rfl
    · have h2' : ¬ (c.withPixels f d).display
          ((x + col) % DisplayWidth + (y + r) % DisplayHeight * DisplayWidth) = 1 := h2
      rw [if_neg h2', if_neg h2]
      rfl
  · rw [if_neg h1, if_neg h1]

theorem cellOf_col_inj (x y r a b : Nat) (ha : a < 8) (hb : b < 8)
    (h : cellOf x y r a = cellOf x y r b) : a = b := by
  unfold cellOf DisplayWidth DisplayHeight at h
  omega

theorem cellOf_row_ne (x y r k a b : Nat) (hr : r < k) (hk : k < 32) :
    cellOf x y r a ≠ cellOf x y k b := by
  unfold cellOf DisplayWidth DisplayHeight
  omega

/-- Inner loop of `draw` over the first `j` columns of row `r`. -/
theorem drawRow_inner (x y r pixel : Nat) (c : Chip8) (f : Nat) (d : Nat → Nat) (j : Nat)
    (hj : j ≤ 8) :
    ∃ f' d', (List.range j).foldl (drawPixel x y r pixel) (c.withPixels f d)
        = c.withPixels f' d' ∧
      (∀ p, d' p = if ∃ col, col < j ∧ pixel &&& (0b10000000 >>> col) ≠ 0 ∧
          p = cellOf x y r col then d p ^^^ 1 else d p) ∧
      (f' = if ∃ col, col < j ∧ pixel &&& (0b10000000 >>> col) ≠ 0 ∧
          d (cellOf x y r col) = 1 then 1 else f) := by
  induction j with
  | zero =>
    refine ⟨f, d, rfl, ?_, ?_⟩
    · intro p
      simp
    · simp
  | succ j ih =>
    obtain ⟨f', d', hfold, hd, hf⟩ := ih (by omega)
    rw [List.range_succ, List.foldl_append, hfold]
    simp only [List.foldl_cons, List.foldl_nil, drawPixel_withPixels]
    by_cases hbit : pixel &&& (0b10000000 >>> j) ≠ 0
    · rw [if_pos hbit]
      have hnew : d' (cellOf x y r j) = d (cellOf x y r j) := by
        rw [hd]
        apply if_neg
        rintro ⟨col, hcol, _, heq⟩
        have := cellOf_col_inj x y r j col (by omega) (by omega) heq
        omega
      refine ⟨_, _, rfl, ?_, ?_⟩
      · intro p
        by_cases hp : p = cellOf x y r j
        · subst hp
          rw [store_same, hnew]
          rw [if_pos ⟨j, by omega, hbit, rfl⟩]
        · rw [store_other _ _ _ _ hp, hd]
          by_cases hex : ∃ col, col < j ∧ pixel &&& (0b10000000 >>> col) ≠ 0 ∧
              p = cellOf x y r col
          · obtain ⟨col, h1, h2, h3⟩ := hex
            rw [if_pos ⟨col, h1, h2, h3⟩, if_pos ⟨col, by omega, h2, h3⟩]
          · rw [if_neg hex, if_neg]
            rintro ⟨col, h1, h2, h3⟩
            by_cases hc : col = j
            · subst hc
              exact hp h3
            · exact hex ⟨col, by omega, h2, h3⟩
      · rw [hnew, hf]
        by_cases hone : d (cellOf x y r j) = 1
        · rw [if_pos hone, if_pos ⟨j, by omega, hbit, hone⟩]
        · rw [if_neg hone]
          by_cases hex : ∃ col, col < j ∧ pixel &&& (0b10000000 >>> col) ≠ 0 ∧
              d (cellOf x y r col) = 1
          · obtain ⟨col, h1, h2, h3⟩ := hex
            rw [if_pos ⟨col, h1, h2, h3⟩, if_pos ⟨col, by omega, h2, h3⟩]
          · rw [if_neg hex, if_neg]
            rintro ⟨col, h1, h2, h3⟩
            by_cases hc : col = j
            · subst hc
              exact hone h3
            · exact hex ⟨col, by omega, h2, h3⟩
    · rw [if_neg hbit]
      refine ⟨f', d', rfl, ?_, ?_⟩
      · intro p
        rw [hd]
        by_cases hex : ∃ col, col < j ∧ pixel &&& (0b10000000 >>> col) ≠ 0 ∧
            p = cellOf x y r col
        · obtain ⟨col, h1, h2, h3⟩ := hex
          rw [if_pos ⟨col, h1, h2, h3⟩, if_pos ⟨col, by omega, h2, h3⟩]
        · rw [if_neg hex, if_neg]
          rintro ⟨col, h1, h2, h3⟩
          by_cases hc : col = j
          · subst hc
            exact hbit h2
          · exact hex ⟨col, by omega, h2, h3⟩
      · rw [hf]
        by_cases hex : ∃ col, col < j ∧ pixel &&& (0b10000000 >>> col) ≠ 0 ∧
            d (cellOf x y r col) = 1
        · obtain ⟨col, h1, h2, h3⟩ := hex
          rw [if_pos ⟨col, h1, h2, h3⟩, if_pos ⟨col, by omega, h2, h3⟩]
        · rw [if_neg hex, if_neg]
          rintro ⟨col, h1, h2, h3⟩
          by_cases hc : col = j
          · subst hc
            exact hbit h2
          · exact hex ⟨col, by omega, h2, h3⟩

end Chip8

namespace Chip8

/-- Outer loop of `draw` over the first `k` rows of the sprite at `I`. -/
theorem draw_rows (x y : Nat) (c : Chip8) (f : Nat) (d : Nat → Nat) (k : Nat)
    (hk : k ≤ 32) (hI : c.cpu.I + k ≤ RamSize) :
    ∃ f' d', (List.range k).foldlM (drawRow x y) (c.withPixels f d)
        = some (c.withPixels f' d') ∧
      (∀ p, (∃ r, r < k ∧ ∃ col, col < 8 ∧ spriteBit c.ram c.cpu.I r col ∧
          p = cellOf x y r col) → d' p = d p ^^^ 1) ∧
      (∀ p, (¬ ∃ r, r < k ∧ ∃ col, col < 8 ∧ spriteBit c.ram c.cpu.I r col ∧
          p = cellOf x y r col) → d' p = d p) ∧
      ((∃ r, r < k ∧ ∃ col, col < 8 ∧ spriteBit c.ram c.cpu.I r col ∧
          d (cellOf x y r col) = 1) → f' = 1) ∧
      ((¬ ∃ r, r < k ∧ ∃ col, col < 8 ∧ spriteBit c.ram c.cpu.I r col ∧
          d (cellOf x y r col) = 1) → f' = f) := by
  induction k with
  | zero =>
    refine ⟨f, d, rfl, ?_, ?_, ?_, ?_⟩
    · rintro p ⟨r, hr, _⟩
      omega
    · intro p _
      rfl
    · rintro ⟨r, hr, _⟩
      omega
    · intro _
      rfl
  | succ k ih =>
    obtain ⟨f', d', hfold, hd1, hd0, hf1, hf0⟩ := ih (by omega) (by omega)
    obtain ⟨f'', d'', hin, hd2, hf2⟩ :=
      drawRow_inner x y k (c.ram (c.cpu.I + k)) c f' d' 8 (le_refl 8)
    have haddr : (c.cpu.I + k) % 65536 = c.cpu.I + k := by
      unfold RamSize at hI
      omega
    have hlt : c.cpu.I + k < RamSize := by omega
    have hrow : drawRow x y (c.withPixels f' d') k = some (c.withPixels f'' d'') := by
      unfold drawRow
      simp only [withPixels_I, withPixels_ram, haddr, hlt, if_true]
      rw [hin]
    have hfresh : ∀ col, d' (cellOf x y k col) = d (cellOf x y k col) := by
      intro col
      apply hd0
      rintro ⟨r, hr, col', _, _, heq⟩
      exact cellOf_row_ne x y r k col' col hr (by omega) heq.symm
    refine ⟨f'', d'', ?_, ?_, ?_, ?_, ?_⟩
    · rw [List.range_succ, List.foldlM_append, hfold]
      simp [hrow]
    · rintro p ⟨r, hr, col, hc1, hc2, hc3⟩
      rw [hd2]
      by_cases hrk : r = k
      · subst hrk
        rw [if_pos ⟨col, hc1, hc2, hc3⟩, hc3, hfresh]
      · rw [if_neg, hd1 p ⟨r, by omega, col, hc1, hc2, hc3⟩]
        rintro ⟨col', _, _, heq⟩
        rw [hc3] at heq
        exact cellOf_row_ne x y r k col col' (by omega) (by omega) heq
    · intro p hno
      rw [hd2, if_neg, hd0]
      · rintro ⟨r, hr, rest⟩
        exact hno ⟨r, by omega, rest⟩
      · rintro ⟨col, hc1, hc2, hc3⟩
        exact hno ⟨k, by omega, col, hc1, hc2, hc3⟩
    · rintro ⟨r, hr, col, hc1, hc2, hc3⟩
      rw [hf2]
      by_cases hrk : r = k
      · subst hrk
        rw [if_pos ⟨col, hc1, hc2, by rw [hfresh]; exact hc3⟩]
      · rw [hf1 ⟨r, by omega, col, hc1, hc2, hc3⟩]
        split_ifs <;> rfl
    · intro hno
      rw [hf2, if_neg, hf0]
      · rintro ⟨r, hr, rest⟩
        exact hno ⟨r, by omega, rest⟩
      · rintro ⟨col, hc1, hc2, hc3⟩
        rw [hfresh] at hc3
        exact hno ⟨k, by omega, col, hc1, hc2, hc3⟩

theorem spriteBit_iff (ram : Nat → Nat) (I r col : Nat) (hc : col < 8) :
    spriteBit ram I r col ↔ (ram (I + r)).testBit (7 - col) = true := by
  unfold spriteBit
  have hmask : (0b10000000 : Nat) >>> col = 2 ^ (7 - col) := by
    interval_cases col <;> rfl
  rw [hmask, Nat.and_two_pow]
  cases (ram (I + r)).testBit (7 - col) <;> simp

theorem cellOf_eq (x y r col : Nat) :
    cellOf x y r col = (x + col) % 64 + 64 * ((y + r) % 32) := by
  unfold cellOf DisplayWidth DisplayHeight
  omega

theorem targets_iff (ram : Nat → Nat) (I x y n p : Nat) :
    Targets ram I x y n p ↔
      ∃ r, r < n ∧ ∃ col, col < 8 ∧ spriteBit ram I r col ∧ p = cellOf x y r col := by
  unfold Targets
  constructor
  · rintro ⟨r, hr, col, hc, hb, hp⟩
    exact ⟨r, hr, col, hc, (spriteBit_iff ram I r col hc).2 hb, by rw [cellOf_eq]; exact hp⟩
  · rintro ⟨r, hr, col, hc, hb, hp⟩
    exact ⟨r, hr, col, hc, (spriteBit_iff ram I r col hc).1 hb, by rw [← cellOf_eq]; exact hp⟩

/-- The handler of DXYN on a machine whose sprite rows lie inside memory: the
result is the machine with the targeted cells toggled, the collision flag in
`VF`, the dirty flag set and the program counter moved by 2. -/
theorem draw_eq (c : Chip8) (hn : c.opcode &&& 0x000F ≤ 32)
    (hI : c.cpu.I + (c.opcode &&& 0x000F) ≤ RamSize) :
    ∃ f' d', c.draw = some ({ c.withPixels f' d' with shouldDraw := true }.advance 2) ∧
      (∀ p, Targets c.ram c.cpu.I (c.cpu.V c.opX) (c.cpu.V c.opY) (c.opcode &&& 0x000F) p →
        d' p = c.display p ^^^ 1) ∧
      (∀ p, ¬ Targets c.ram c.cpu.I (c.cpu.V c.opX) (c.cpu.V c.opY) (c.opcode &&& 0x000F) p →
        d' p = c.display p) ∧
      ((∃ p, Targets c.ram c.cpu.I (c.cpu.V c.opX) (c.cpu.V c.opY) (c.opcode &&& 0x000F) p ∧
        c.display p = 1) → f' = 1) ∧
      ((¬ ∃ p, Targets c.ram c.cpu.I (c.cpu.V c.opX) (c.cpu.V c.opY) (c.opcode &&& 0x000F) p ∧
        c.display p = 1) → f' = 0) := by
  obtain ⟨f', d', hfold, hd1, hd0, hf1, hf0⟩ :=
    draw_rows (c.cpu.V c.opX) (c.cpu.V c.opY) c 0 c.display (c.opcode &&& 0x000F) hn hI
  refine ⟨f', d', ?_, ?_, ?_, ?_, ?_⟩
  · unfold draw
    simp only [setV_flag_eq, hfold]
  · intro p hp
    exact hd1 p ((targets_iff _ _ _ _ _ _).1 hp)
  · intro p hp
    exact hd0 p (fun h => hp ((targets_iff _ _ _ _ _ _).2 h))
  · rintro ⟨p, hp, hone⟩
    obtain ⟨r, hr, col, hc1, hc2, hc3⟩ := (targets_iff _ _ _ _ _ _).1 hp
    rw [hc3] at hone
    exact hf1 ⟨r, hr, col, hc1, hc2, hone⟩
  · intro hno
    apply hf0
    rintro ⟨r, hr, col, hc1, hc2, hc3⟩
    exact hno ⟨_, (targets_iff _ _ _ _ _ _).2 ⟨r, hr, col, hc1, hc2, rfl⟩, hc3⟩

end Chip8

namespace Chip8

/-- A tick whose fetched opcode is `DXYN`, with the `N` sprite rows inside
memory, in explicit form. -/
theorem Tick_draw (rnd : Nat) (s : Chip8) (X Y n : Nat) (hX : X < 16) (hY : Y < 16)
    (hn : n < 16) (hpc : s.cpu.PC + 1 < RamSize)
    (hop : s.opcodeAt = 0xD000 + 0x100 * X + 0x10 * Y + n)
    (hI : s.cpu.I + n ≤ RamSize) :
    ∃ f' d', s.Tick rnd = Outcome.ok
        ({ s.fetched.withPixels f' d' with shouldDraw := true }.advance 2).tickTimers ∧
      (∀ p, Targets s.ram s.cpu.I (s.cpu.V X) (s.cpu.V Y) n p → d' p = s.display p ^^^ 1) ∧
      (∀ p, ¬ Targets s.ram s.cpu.I (s.cpu.V X) (s.cpu.V Y) n p → d' p = s.display p) ∧
      ((∃ p, Targets s.ram s.cpu.I (s.cpu.V X) (s.cpu.V Y) n p ∧ s.display p = 1) → f' = 1) ∧
      ((¬ ∃ p, Targets s.ram s.cpu.I (s.cpu.V X) (s.cpu.V Y) n p ∧ s.display p = 1) →
        f' = 0) := by
  have hfam : s.opcodeAt &&& 0xF000 = 0xd000 := by
    rw [and_F000, hop]
    omega
  have hlow : s.fetched.opcode &&& 0x000F = n := by
    rw [and_000F, fetched_opcode, hop]
    omega
  have hx : s.fetched.opX = X := by
    rw [opX_eq, fetched_opcode, hop]
    omega
  have hy : s.fetched.opY = Y := by
    rw [opY_eq, fetched_opcode, hop]
    omega
  obtain ⟨f', d', hdraw, h1, h2, h3, h4⟩ := draw_eq s.fetched
    (by rw [hlow]; omega) (by rw [hlow]; exact hI)
  rw [hlow, hx, hy] at h1 h2 h3 h4
  have hd : s.fetched.decodeExecute rnd = Outcome.ok
      ({ s.fetched.withPixels f' d' with shouldDraw := true }.advance 2) := by
    simp [decodeExecute, hfam, hdraw, Outcome.ofOption]
  exact ⟨f', d', Tick_ok_of rnd s _ hpc hd, h1, h2, h3, h4⟩

/-- C7 (sprite draw DXYN). For registers `X`, `Y` holding 8-bit values `x`, `y`,
a row count `n` below 16 and an index `I` with `I + n` inside memory, a tick
whose fetched opcode is `DXYN` succeeds; every targeted cell of the framebuffer
ends as the old cell XOR 1 and every other cell is unchanged (for every
framebuffer, in particular one whose cells are 0 or 1); `VF = 1` if and only if
some targeted cell was 1 before the draw, and `VF = 0` otherwise; the dirty
flag is set and the program counter has advanced by 2. -/
theorem draw_spec (rnd : Nat) (s : Chip8) (X Y n : Nat) (hX : X < 16) (hY : Y < 16)
    (hn : n < 16) (hpc : s.cpu.PC + 1 < RamSize)
    (hop : s.opcodeAt = 0xD000 + 0x100 * X + 0x10 * Y + n)
    (_hx : s.cpu.V X < 256) (_hy : s.cpu.V Y < 256)
    (hI : s.cpu.I + n ≤ RamSize) :
    ∃ s', s.Tick rnd = Outcome.ok s' ∧
      (∀ p, Targets s.ram s.cpu.I (s.cpu.V X) (s.cpu.V Y) n p →
        s'.display p = s.display p ^^^ 1) ∧
      (∀ p, ¬ Targets s.ram s.cpu.I (s.cpu.V X) (s.cpu.V Y) n p →
        s'.display p = s.display p) ∧
      (s'.cpu.V 0xF = 1 ↔
        ∃ p, Targets s.ram s.cpu.I (s.cpu.V X) (s.cpu.V Y) n p ∧ s.display p = 1) ∧
      ((¬ ∃ p, Targets s.ram s.cpu.I (s.cpu.V X) (s.cpu.V Y) n p ∧ s.display p = 1) →
        s'.cpu.V 0xF = 0) ∧
      s'.shouldDraw = true ∧ s'.cpu.PC = s.cpu.PC + 2 := by
  obtain ⟨f', d', hT, h1, h2, h3, h4⟩ := Tick_draw rnd s X Y n hX hY hn hpc hop hI
  have hflag : (({ s.fetched.withPixels f' d' with shouldDraw := true }.advance 2).tickTimers).cpu.V
      0xF = f' := by
    rw [tickTimers_V, advance_V]
    show (s.fetched.withPixels f' d').cpu.V 0xF = f'
    exact withPixels_flag _ _ _
  refine ⟨_, hT, ?_, ?_, ?_, ?_, ?_, ?_⟩
  · intro p hp
    rw [tickTimers_display, advance_display]
    exact h1 p hp
  · intro p hp
    rw [tickTimers_display, advance_display]
    exact h2 p hp
  · rw [hflag]
    constructor
    · intro hone
      by_contra hno
      have := h4 hno
      omega
    · exact h3
  · intro hno
    rw [hflag]
    exact h4 hno
  · rw [tickTimers_shouldDraw, advance_shouldDraw]
  · rw [tickTimers_PC, advance_PC]
    unfold RamSize at hpc
    show (s.cpu.PC + 2) % 65536 = s.cpu.PC + 2
    omega

/-- Instance of `draw_spec` on `drawMachine` (sprite rows `0xD0`, `0x12` drawn
at `(62, 31)` on a cleared framebuffer): the tick succeeds, the cell `(63, 31)`
(index `63 + 64 * 31`, hit by bit 6 of row 0) is toggled, cell 5 is not
targeted and keeps its value, `VF = 0`, the dirty flag is set and the program
counter has advanced by 2. -/
theorem draw_spec_witness :
    ∃ s', drawMachine.Tick 0 = Outcome.ok s' ∧
      s'.display (63 + 64 * 31) = drawMachine.display (63 + 64 * 31) ^^^ 1 ∧
      s'.display 5 = drawMachine.display 5 ∧
      s'.cpu.V 0xF = 0 ∧ s'.shouldDraw = true ∧ s'.cpu.PC = drawMachine.cpu.PC + 2 := by
  obtain ⟨s', hT, h1, h2, _, h4, h5, h6⟩ :=
    draw_spec 0 drawMachine 0 1 2 (by decide) (by decide) (by decide) (by decide) (by decide)
      (by decide) (by decide) (by decide)
  refine ⟨s', hT, h1 _ (by decide), h2 _ (by decide), ?_, h5, h6⟩
  apply h4
  rintro ⟨p, _, hp⟩
  exact Nat.zero_ne_one hp

/-- C8 (drawing twice). For registers `X`, `Y` other than `VF`, a row count `n`
below 16 and sprite rows inside memory: when the instruction `DXYN` is executed
by two consecutive ticks (the same opcode is stored at `PC` and at `PC + 2`),
both ticks succeed and the framebuffer after the second equals the framebuffer
before the first, for every framebuffer; and when the framebuffer started
cleared and the sprite has a set bit, `VF = 1` after the second draw. -/
theorem draw_twice_restores (rnd1 rnd2 : Nat) (s : Chip8) (X Y n : Nat) (hX : X < 0xF)
    (hY : Y < 0xF) (hn : n < 16) (hpc : s.cpu.PC + 3 < RamSize)
    (hop1 : s.opcodeAt = 0xD000 + 0x100 * X + 0x10 * Y + n)
    (hop2 : (s.ram (s.cpu.PC + 2) <<< 8) ||| s.ram (s.cpu.PC + 3)
      = 0xD000 + 0x100 * X + 0x10 * Y + n)
    (hI : s.cpu.I + n ≤ RamSize) :
    ∃ s1 s2, s.Tick rnd1 = Outcome.ok s1 ∧ s1.Tick rnd2 = Outcome.ok s2 ∧
      s2.display = s.display ∧
      ((∀ p, s.display p = 0) →
        (∃ r, r < n ∧ ∃ c, c < 8 ∧ (s.ram (s.cpu.I + r)).testBit (7 - c) = true) →
        s2.cpu.V 0xF = 1) := by
  obtain ⟨f1, d1, hT1, a1, a2, _, _⟩ :=
    Tick_draw rnd1 s X Y n (by omega) (by omega) hn (by omega) hop1 hI
  have hXF : X ≠ 0xF := by omega
  have hYF : Y ≠ 0xF := by omega
  generalize hs1 : ({ s.fetched.withPixels f1 d1 with shouldDraw := true }.advance 2).tickTimers
    = s1 at hT1
  have hram : s1.ram = s.ram := by
    rw [← hs1, tickTimers_ram, advance_ram]
    rfl
  have hI1 : s1.cpu.I = s.cpu.I := by
    rw [← hs1, tickTimers_I, advance_I]
    rfl
  have hVX : s1.cpu.V X = s.cpu.V X := by
    rw [← hs1, tickTimers_V, advance_V]
    show (s.fetched.withPixels f1 d1).cpu.V X = s.cpu.V X
    exact withPixels_V _ _ _ _ hXF
  have hVY : s1.cpu.V Y = s.cpu.V Y := by
    rw [← hs1, tickTimers_V, advance_V]
    show (s.fetched.withPixels f1 d1).cpu.V Y = s.cpu.V Y
    exact withPixels_V _ _ _ _ hYF
  have hd1 : s1.display = d1 := by
    rw [← hs1, tickTimers_display, advance_display]
    rfl
  have hPC : s1.cpu.PC = s.cpu.PC + 2 := by
    rw [← hs1, tickTimers_PC, advance_PC]
    unfold RamSize at hpc
    show (s.cpu.PC + 2) % 65536 = s.cpu.PC + 2
    omega
  have hop : s1.opcodeAt = 0xD000 + 0x100 * X + 0x10 * Y + n := by
    unfold opcodeAt
    rw [hram, hPC, ← hop2]
    unfold RamSize at hpc
    have : (s.cpu.PC + 2 + 1) % 65536 = s.cpu.PC + 3 := by omega
    rw [this]
  obtain ⟨f2, d2, hT2, b1, b2, b3, _⟩ :=
    Tick_draw rnd2 s1 X Y n (by omega) (by omega) hn (by omega) hop (by rw [hI1]; exact hI)
  rw [hram, hI1, hVX, hVY, hd1] at b1 b2 b3
  refine ⟨s1, _, hT1, hT2, ?_, ?_⟩
  · rw [tickTimers_display, advance_display]
    funext p
    show d2 p = s.display p
    by_cases hp : Targets s.ram s.cpu.I (s.cpu.V X) (s.cpu.V Y) n p
    · rw [b1 p hp, a1 p hp, Nat.xor_assoc, Nat.xor_self, Nat.xor_zero]
    · rw [b2 p hp, a2 p hp]
  · rintro hclear ⟨r, hr, c, hc, hbit⟩
    rw [tickTimers_V, advance_V]
    show (s1.fetched.withPixels f2 d2).cpu.V 0xF = 1
    rw [withPixels_flag]
    apply b3
    have ht : Targets s.ram s.cpu.I (s.cpu.V X) (s.cpu.V Y) n
        ((s.cpu.V X + c) % 64 + 64 * ((s.cpu.V Y + r) % 32)) := ⟨r, hr, c, hc, hbit, rfl⟩
    refine ⟨_, ht, ?_⟩
    rw [a1 _ ht, hclear]
    rfl

/-- Instance of `draw_twice_restores` on `drawMachine`, whose framebuffer is
cleared and whose sprite row `0xD0` has bit 7 set: both draws succeed, the
framebuffer is restored and `VF = 1`. -/
theorem draw_twice_restores_witness :
    ∃ s1 s2, drawMachine.Tick 0 = Outcome.ok s1 ∧ s1.Tick 0 = Outcome.ok s2 ∧
      s2.display = drawMachine.display ∧ s2.cpu.V 0xF = 1 := by
  obtain ⟨s1, s2, h1, h2, h3, h4⟩ :=
    draw_twice_restores 0 0 drawMachine 0 1 2 (by decide) (by decide) (by decide) (by decide)
      (by decide) (by decide) (by decide)
  exact ⟨s1, s2, h1, h2, h3, h4 (fun _ => rfl) ⟨0, by decide, 0, by decide, by decide⟩⟩

end Chip8

/-! ## Subroutine call and return (2NNN, 00EE) -/

namespace Chip8

theorem callFunc_ok (c : Chip8) (h : c.cpu.SP + 1 < StackSize) :
    ∃ c', c.callFunc = some c' ∧ c'.cpu.PC = c.opcode &&& 0x0FFF ∧
      c'.cpu.SP = c.cpu.SP + 1 ∧
      c'.cpu.Stack (c.cpu.SP + 1) = (c.cpu.PC + 2) % 65536 ∧
      (∀ i, i ≠ c.cpu.SP + 1 → c'.cpu.Stack i = c.cpu.Stack i) ∧ c'.ram = c.ram := by
  have hsp : (c.cpu.SP + 1) % 65536 = c.cpu.SP + 1 := by
    unfold StackSize at h
    omega
  unfold callFunc setCpu
  dsimp only
  rw [hsp, if_pos h]
  exact ⟨_, rfl, rfl, rfl, store_same _ _ _, fun i hi => store_other _ _ _ _ hi, rfl⟩

theorem callFunc_fault (c : Chip8) (h : c.cpu.SP = 15) : c.callFunc = none := by
  unfold callFunc setCpu
  dsimp only
  rw [h, if_neg]
  decide

theorem returnFromSubroutine_ok (c : Chip8) (h : c.cpu.SP < StackSize) :
    ∃ c', c.returnFromSubroutine = some c' ∧ c'.cpu.PC = c.cpu.Stack c.cpu.SP ∧
      c'.cpu.SP = (c.cpu.SP + 65535) % 65536 ∧ c'.cpu.Stack = c.cpu.Stack ∧
      c'.ram = c.ram := by
  unfold returnFromSubroutine setCpu
  dsimp only
  rw [if_pos h]
  exact ⟨_, rfl, rfl, rfl, rfl, rfl⟩

/-- Call then return with at most 14 entries in use. In a state with `PC = p`
whose stack pointer is below the last stack slot (`SP + 1 < 16`), a tick whose
fetched opcode is `2NNN` succeeds, sets `PC = NNN`, increments the stack
pointer and stores `p + 2` in the new top slot; if the instruction stored at
`NNN` is `00EE`, the next tick succeeds, sets `PC = p + 2` and restores the
stack pointer to its value before the call. With 15 entries in use the call
faults, see `call_with_free_entry_faults`. -/
theorem call_return_roundtrip (rnd1 rnd2 : Nat) (s : Chip8) (NNN : Nat) (hN : NNN < 0x1000)
    (hpc : s.cpu.PC + 1 < RamSize) (hop : s.opcodeAt = 0x2000 + NNN)
    (hsp : s.cpu.SP + 1 < StackSize) :
    ∃ s1, s.Tick rnd1 = Outcome.ok s1 ∧ s1.cpu.PC = NNN ∧ s1.cpu.SP = s.cpu.SP + 1 ∧
      s1.cpu.Stack (s.cpu.SP + 1) = s.cpu.PC + 2 ∧
      (NNN + 1 < RamSize → s1.opcodeAt = 0x00EE →
        ∃ s2, s1.Tick rnd2 = Outcome.ok s2 ∧ s2.cpu.PC = s.cpu.PC + 2 ∧
          s2.cpu.SP = s.cpu.SP) := by
  unfold StackSize at hsp
  have hRam : RamSize = 4000 := rfl
  have hfam : s.opcodeAt &&& 0xF000 = 0x2000 := by
    rw [and_F000, hop]
    omega
  have hnnn : s.opcodeAt &&& 0x0FFF = NNN := by
    rw [and_0FFF, hop]
    omega
  have hpc2 : (s.cpu.PC + 2) % 65536 = s.cpu.PC + 2 := by omega
  obtain ⟨c1, hcall, c1PC, c1SP, c1St, _, _⟩ := callFunc_ok s.fetched hsp
  rw [fetched_opcode, hnnn] at c1PC
  rw [fetched_cpu] at c1SP c1St
  rw [hpc2] at c1St
  have hd : s.fetched.decodeExecute rnd1 = Outcome.ok c1 := by
    simp [decodeExecute, hfam, hcall, Outcome.ofOption]
  have hT1 := Tick_ok_of rnd1 s _ hpc hd
  have hPC1 : c1.tickTimers.cpu.PC = NNN := by
    rw [tickTimers_PC, c1PC]
  have hSP1 : c1.tickTimers.cpu.SP = s.cpu.SP + 1 := by
    rw [tickTimers_SP, c1SP]
  have hSt1 : c1.tickTimers.cpu.Stack (s.cpu.SP + 1) = s.cpu.PC + 2 := by
    rw [tickTimers_Stack, c1St]
  refine ⟨c1.tickTimers, hT1, hPC1, hSP1, hSt1, ?_⟩
  intro hN2 hret
  have hz : c1.tickTimers.opcodeAt &&& 0xF000 = 0x0000 := by
    rw [hret]
    decide
  have hz2 : c1.tickTimers.opcodeAt &&& 0xF00F = 0x000E := by
    rw [hret]
    decide
  have hspb : (s.cpu.SP + 1 + 65535) % 65536 = s.cpu.SP := by omega
  obtain ⟨c2, hr, c2PC, c2SP, _, _⟩ := returnFromSubroutine_ok c1.tickTimers.fetched
    (by rw [fetched_cpu, hSP1]; exact hsp)
  rw [fetched_cpu, hSP1] at c2PC c2SP
  rw [hSt1] at c2PC
  rw [hspb] at c2SP
  have hd2 : c1.tickTimers.fetched.decodeExecute rnd2 = Outcome.ok c2 := by
    simp [decodeExecute, zxSwitch, hz, hz2, hr, Outcome.ofOption]
  refine ⟨_, Tick_ok_of rnd2 _ _ (by rw [hPC1]; exact hN2) hd2, ?_, ?_⟩
  · rw [tickTimers_PC, c2PC]
  · rw [tickTimers_SP, c2SP]

/-- Instance of `call_return_roundtrip` with `p = 0x200`: the call `2204` at
0x200 followed by the return stored at 0x204 lands on 0x202 with the stack
pointer back at 0. -/
theorem call_return_roundtrip_witness :
    ∃ s1, callReturnMachine.Tick 0 = Outcome.ok s1 ∧ s1.cpu.PC = 0x204 ∧ s1.cpu.SP = 1 ∧
      s1.cpu.Stack 1 = 0x202 ∧
      ∃ s2, s1.Tick 0 = Outcome.ok s2 ∧ s2.cpu.PC = 0x202 ∧ s2.cpu.SP = 0 := by
  obtain ⟨s1, h1, h2, h3, h4, h5⟩ :=
    call_return_roundtrip 0 0 callReturnMachine 0x204 (by decide) (by decide) (by decide)
      (by decide)
  have hs1 : (callReturnMachine.Tick 0).state?.map (fun c => c.opcodeAt) = some 0x00EE := by
    decide
  rw [h1] at hs1
  simp only [Outcome.state?, Option.map_some', Option.some.injEq] at hs1
  exact ⟨s1, h1, h2, h3, h4, h5 (by decide) hs1⟩

/-- C9 (call with a stack that is not full). On `deepCallMachine`, 15 ticks
perform 15 nested calls and leave `SP = 15`, so 15 of the 16 stack entries are
in use and the stack is not full; the next instruction, at `PC = 0x21E`, is the
call `2222` to 0x222, where the return `00EE` is stored. The tick does not set
`PC = 0x222` and push `0x220`: it faults, because `callFunc` increments `SP` to
16 and indexes the 16-entry stack array with it. -/
theorem call_with_free_entry_faults :
    ∃ s, runTicks (fun _ => 0) 15 deepCallMachine = Outcome.ok s ∧
      s.cpu.SP = 15 ∧ s.cpu.SP < StackSize ∧ s.cpu.PC = 0x21E ∧ s.opcodeAt = 0x2222 ∧
      (s.ram 0x222 <<< 8) ||| s.ram 0x223 = 0x00EE ∧
      s.Tick 0 = Outcome.fault :=
  ⟨_, rfl, by decide, by decide, by decide, by decide, by decide, rfl⟩

/-- A machine executing the self-call `2200` stored at 0x200. -/
theorem self_call_step (rnd : Nat) (s : Chip8) (h0 : s.ram 0x200 = 0x22)
    (h1 : s.ram 0x201 = 0x00) (hpc : s.cpu.PC = 0x200) :
    (s.cpu.SP + 1 < 16 → ∃ s', s.Tick rnd = Outcome.ok s' ∧ s'.ram = s.ram ∧
      s'.cpu.PC = 0x200 ∧ s'.cpu.SP = s.cpu.SP + 1) ∧
    (s.cpu.SP = 15 → s.Tick rnd = Outcome.fault) := by
  have hop : s.opcodeAt = 0x2200 := by
    unfold opcodeAt
    rw [hpc]
    have : (0x200 + 1) % 65536 = 0x201 := by decide
    rw [this, h0, h1]
    decide
  have hpc' : s.cpu.PC + 1 < RamSize := by
    rw [hpc]
    decide
  have hfam : s.opcodeAt &&& 0xF000 = 0x2000 := by
    rw [hop]
    decide
  have hnnn : s.opcodeAt &&& 0x0FFF = 0x200 := by
    rw [hop]
    decide
  constructor
  · intro hsp
    obtain ⟨c1, hcall, c1PC, c1SP, _, _, c1ram⟩ := callFunc_ok s.fetched hsp
    rw [fetched_opcode, hnnn] at c1PC
    have hd : s.fetched.decodeExecute rnd = Outcome.ok c1 := by
      simp [decodeExecute, hfam, hcall, Outcome.ofOption]
    refine ⟨_, Tick_ok_of rnd s _ hpc' hd, ?_, ?_, ?_⟩
    · rw [tickTimers_ram, c1ram]
      rfl
    · rw [tickTimers_PC, c1PC]
    · rw [tickTimers_SP, c1SP]
      rfl
  · intro hsp
    have hcall : s.fetched.callFunc = none := callFunc_fault _ hsp
    have hd : s.fetched.decodeExecute rnd = Outcome.fault := by
      simp [decodeExecute, hfam, hcall, Outcome.ofOption]
    exact Tick_fault_of rnd s hpc' hd

theorem runTicks_succ (rnd : Nat → Nat) (n : Nat) (c : Chip8) :
    runTicks rnd (n + 1) c =
      match c.Tick (rnd 0) with
      | Outcome.ok c => runTicks (fun k => rnd (k + 1)) n c
      | o => o := rfl

/-- Running ticks one after another. -/
theorem runTicks_add (a : Nat) :
    ∀ (b : Nat) (rnd : Nat → Nat) (s s' : Chip8), runTicks rnd a s = Outcome.ok s' →
      runTicks rnd (a + b) s = runTicks (fun k => rnd (k + a)) b s' := by
  induction a with
  | zero =>
    intro b rnd s s' h
    simp only [runTicks, Outcome.ok.injEq] at h
    subst h
    simp
  | succ a ih =>
    intro b rnd s s' h
    have hab : a + 1 + b = (a + b) + 1 := by omega
    rw [hab, runTicks_succ]
    rw [runTicks_succ] at h
    cases hT : s.Tick (rnd 0) with
    | ok c =>
      rw [hT] at h
      dsimp only at h ⊢
      rw [ih b _ c s' h]
      rfl
    | err raw c =>
      rw [hT] at h
      cases h
    | fault =>
      rw [hT] at h
      cases h

theorem self_call_run (k : Nat) :
    ∀ (rnd : Nat → Nat) (s : Chip8), s.ram 0x200 = 0x22 → s.ram 0x201 = 0x00 →
      s.cpu.PC = 0x200 → s.cpu.SP + k < 16 →
      ∃ s', runTicks rnd k s = Outcome.ok s' ∧ s'.ram = s.ram ∧ s'.cpu.PC = 0x200 ∧
        s'.cpu.SP = s.cpu.SP + k := by
  induction k with
  | zero =>
    intro rnd s _ _ hpc _
    exact ⟨s, rfl, rfl, hpc, rfl⟩
  | succ k ih =>
    intro rnd s h0 h1 hpc hsp
    obtain ⟨s1, hT, hram, hpc1, hsp1⟩ := (self_call_step (rnd 0) s h0 h1 hpc).1 (by omega)
    obtain ⟨s', hrun, hram', hpc', hsp'⟩ := ih (fun k => rnd (k + 1)) s1
      (by rw [hram]; exact h0) (by rw [hram]; exact h1) hpc1 (by omega)
    refine ⟨s', ?_, by rw [hram', hram], hpc', by omega⟩
    rw [runTicks_succ, hT]
    exact hrun

/-- C10 (stack depth). On the machine constructed from the two-byte program
`22 00` (a call to its own address 0x200), for any font table and any random
bytes, 15 ticks perform 15 nested calls and leave `SP = 15`, and the 16th
nested call faults: `callFunc` increments `SP` to 16 and indexes the 16-entry
stack array with it. -/
theorem sixteenth_nested_call_faults (fontMap : List Nat) (rnd : Nat → Nat) :
    (New fontMap [0x22, 0x00]).cpu.SP = 0 ∧
    (∃ s, runTicks rnd 15 (New fontMap [0x22, 0x00]) = Outcome.ok s ∧ s.cpu.SP = 15 ∧
      s.Tick (rnd 15) = Outcome.fault) ∧
    runTicks rnd 16 (New fontMap [0x22, 0x00]) = Outcome.fault := by
  have h0 : (New fontMap [0x22, 0x00]).ram 0x200 = 0x22 := by
    simp [New, Ram.New, copyInto, ProgramStartAddr, RamSize]
  have h1 : (New fontMap [0x22, 0x00]).ram 0x201 = 0x00 := by
    simp [New, Ram.New, copyInto, ProgramStartAddr, RamSize]
  obtain ⟨s, hrun, hram, hpc, hsp⟩ := self_call_run 15 rnd (New fontMap [0x22, 0x00]) h0 h1
    rfl (by show 0 + 15 < 16; decide)
  have hsp15 : s.cpu.SP = 15 := by
    rw [hsp]
    rfl
  have hfault := (self_call_step (rnd 15) s (by rw [hram]; exact h0) (by rw [hram]; exact h1)
    hpc).2 hsp15
  refine ⟨rfl, ⟨s, hrun, hsp15, hfault⟩, ?_⟩
  rw [runTicks_add 15 1 rnd _ s hrun, runTicks_succ]
  show (match s.Tick (rnd 15) with
    | Outcome.ok c => runTicks (fun k => rnd (k + 1 + 15)) 0 c
    | o => o) = Outcome.fault
  rw [hfault]

end Chip8

/-! ## Memory transfers (FX55, FX65, FX33) -/

namespace Chip8

@[simp] theorem fetched_opX (c : Chip8) : c.fetched.opX = c.opcodeAt / 256 % 16 := by
  rw [opX_eq, fetched_opcode]

/-- Loop of `regDump` over the first `k` registers. -/
theorem regDump_loop (c : Chip8) (k : Nat) (hI : c.cpu.I + k ≤ RamSize) :
    ∃ r, (List.range k).foldlM regDumpStep c = some { c with ram := r } ∧
      (∀ j, j < k → r (c.cpu.I + j) = c.cpu.V j) ∧
      (∀ a, (a < c.cpu.I ∨ c.cpu.I + k ≤ a) → r a = c.ram a) := by
  induction k with
  | zero =>
    refine ⟨c.ram, rfl, ?_, ?_⟩
    · intro j hj
      omega
    · intro a _
      rfl
  | succ k ih =>
    obtain ⟨r, hfold, h1, h2⟩ := ih (by omega)
    have haddr : (c.cpu.I + k) % 65536 = c.cpu.I + k := by
      unfold RamSize at hI
      omega
    have hlt : c.cpu.I + k < RamSize := by omega
    have hstep : regDumpStep { c with ram := r } k
        = some { c with ram := store r (c.cpu.I + k) (c.cpu.V k) } := by
      unfold regDumpStep setRam
      simp only [haddr, hlt, if_true]
    refine ⟨store r (c.cpu.I + k) (c.cpu.V k), ?_, ?_, ?_⟩
    · rw [List.range_succ, List.foldlM_append, hfold]
      simp [hstep]
    · intro j hj
      by_cases hjk : j = k
      · subst hjk
        exact store_same _ _ _
      · rw [store_other _ _ _ _ (by omega)]
        exact h1 j (by omega)
    · intro a ha
      rw [store_other _ _ _ _ (by omega)]
      exact h2 a (by omega)

/-- Loop of `regLoad` over the first `k` registers. -/
theorem regLoad_loop (c : Chip8) (k : Nat) (hI : c.cpu.I + k ≤ RamSize) :
    ∃ v, (List.range k).foldlM regLoadStep c = some (c.setCpu { c.cpu with V := v }) ∧
      (∀ j, j < k → v j = c.ram (c.cpu.I + j)) ∧
      (∀ j, k ≤ j → v j = c.cpu.V j) := by
  induction k with
  | zero =>
    refine ⟨c.cpu.V, rfl, ?_, ?_⟩
    · intro j hj
      omega
    · intro j _
      rfl
  | succ k ih =>
    obtain ⟨v, hfold, h1, h2⟩ := ih (by omega)
    have haddr : (c.cpu.I + k) % 65536 = c.cpu.I + k := by
      unfold RamSize at hI
      omega
    have hlt : c.cpu.I + k < RamSize := by omega
    have hstep : regLoadStep (c.setCpu { c.cpu with V := v }) k
        = some (c.setCpu { c.cpu with V := store v k (c.ram (c.cpu.I + k)) }) := by
      unfold regLoadStep setV setCpu
      simp only [haddr, hlt, if_true]
    refine ⟨store v k (c.ram (c.cpu.I + k)), ?_, ?_, ?_⟩
    · rw [List.range_succ, List.foldlM_append, hfold]
      simp [hstep]
    · intro j hj
      by_cases hjk : j = k
      · subst hjk
        exact store_same _ _ _
      · rw [store_other _ _ _ _ hjk]
        exact h1 j (by omega)
    · intro j hj
      rw [store_other _ _ _ _ (by omega)]
      exact h2 j (by omega)

/-- C11 (bulk dump then bulk load). For a register index `X` and an index `I`
with `I + X` inside memory, a tick whose fetched opcode is `FX55` succeeds,
writes `memory[I + k] = V[k]` for `k = 0..X`, changes no other memory byte and
leaves `I` unchanged; and on every later machine `t` whose memory is the one
left by the dump and whose index register is the same `I` (its registers being
arbitrary), a tick whose fetched opcode is `FX65` succeeds, makes `V[0..X]`
equal to the values before the dump and leaves `I` unchanged. -/
theorem dump_load_roundtrip (rnd1 rnd2 : Nat) (s : Chip8) (X : Nat) (hX : X < 16)
    (hpc : s.cpu.PC + 1 < RamSize) (hop : s.opcodeAt = 0xF055 + 0x100 * X)
    (hI : s.cpu.I + X < RamSize) :
    ∃ s1, s.Tick rnd1 = Outcome.ok s1 ∧
      (∀ k, k ≤ X → s1.ram (s.cpu.I + k) = s.cpu.V k) ∧
      (∀ a, (a < s.cpu.I ∨ s.cpu.I + X < a) → s1.ram a = s.ram a) ∧
      s1.cpu.I = s.cpu.I ∧
      (∀ t : Chip8, t.ram = s1.ram → t.cpu.I = s.cpu.I → t.cpu.PC + 1 < RamSize →
        t.opcodeAt = 0xF065 + 0x100 * X →
        ∃ t', t.Tick rnd2 = Outcome.ok t' ∧ (∀ k, k ≤ X → t'.cpu.V k = s.cpu.V k) ∧
          t'.cpu.I = t.cpu.I ∧ t'.ram = t.ram) := by
  have hfam : s.opcodeAt &&& 0xF000 = 0xf000 := by
    rw [and_F000, hop]
    omega
  have hlow : s.opcodeAt &&& 0x00FF = 0x0055 := by
    rw [and_00FF, hop]
    omega
  have hx : s.fetched.opX = X := by
    rw [fetched_opX, hop]
    omega
  obtain ⟨r, hfold, h1, h2⟩ := regDump_loop s.fetched (X + 1) (by rw [fetched_cpu]; omega)
  rw [fetched_cpu] at h1 h2
  have hdump : s.fetched.regDump = some ({ s.fetched with ram := r }.advance 2) := by
    unfold regDump
    simp only [hx, hfold]
  have hd : s.fetched.decodeExecute rnd1 = Outcome.ok
      ({ s.fetched with ram := r }.advance 2) := by
    simp [decodeExecute, fxSwitch, hfam, hlow, hdump, Outcome.ofOption]
  refine ⟨_, Tick_ok_of rnd1 s _ hpc hd, ?_, ?_, ?_, ?_⟩
  · intro k hk
    rw [tickTimers_ram, advance_ram]
    exact h1 k (by omega)
  · intro a ha
    rw [tickTimers_ram, advance_ram]
    exact h2 a (by omega)
  · rw [tickTimers_I, advance_I]
    rfl
  · intro t htram htI htpc htop
    rw [tickTimers_ram, advance_ram] at htram
    have hfam2 : t.opcodeAt &&& 0xF000 = 0xf000 := by
      rw [and_F000, htop]
      omega
    have hlow2 : t.opcodeAt &&& 0x00FF = 0x0065 := by
      rw [and_00FF, htop]
      omega
    have hx2 : t.fetched.opX = X := by
      rw [fetched_opX, htop]
      omega
    obtain ⟨v, hfold2, g1, g2⟩ := regLoad_loop t.fetched (X + 1)
      (by rw [fetched_cpu, htI]; omega)
    rw [fetched_cpu, fetched_ram, htI, htram] at g1
    have hload : t.fetched.regLoad
        = some ((t.fetched.setCpu { t.fetched.cpu with V := v }).advance 2) := by
      unfold regLoad
      simp only [hx2, hfold2]
    have hd2 : t.fetched.decodeExecute rnd2 = Outcome.ok
        ((t.fetched.setCpu { t.fetched.cpu with V := v }).advance 2) := by
      simp [decodeExecute, fxSwitch, hfam2, hlow2, hload, Outcome.ofOption]
    refine ⟨_, Tick_ok_of rnd2 t _ htpc hd2, ?_, ?_, ?_⟩
    · intro k hk
      rw [tickTimers_V, advance_V]
      show v k = s.cpu.V k
      rw [g1 k (by omega)]
      exact h1 k (by omega)
    · rw [tickTimers_I, advance_I]
      rfl
    · rw [tickTimers_ram, advance_ram]
      rfl

end Chip8

namespace Chip8

/-- Instance of `dump_load_roundtrip` on `dumpMachine`: the dump `F255` writes
`0x11, 0x22, 0x33` at `0x300..0x302`; after every register is overwritten, the
load `F265` stored at the next address restores `V0..V2`. -/
theorem dump_load_roundtrip_witness :
    ∃ s1 t', dumpMachine.Tick 0 = Outcome.ok s1 ∧
      s1.ram 0x300 = 0x11 ∧ s1.ram 0x301 = 0x22 ∧ s1.ram 0x302 = 0x33 ∧
      s1.ram 0x303 = dumpMachine.ram 0x303 ∧ s1.cpu.I = 0x300 ∧
      (clobberRegisters s1).Tick 0 = Outcome.ok t' ∧
      t'.cpu.V 0 = 0x11 ∧ t'.cpu.V 1 = 0x22 ∧ t'.cpu.V 2 = 0x33 ∧ t'.cpu.I = 0x300 := by
  obtain ⟨s1, h1, h2, h3, h4, h5⟩ :=
    dump_load_roundtrip 0 0 dumpMachine 2 (by decide) (by decide) (by decide) (by decide)
  have hpc : (dumpMachine.Tick 0).state?.map
      (fun c => decide ((clobberRegisters c).cpu.PC + 1 < RamSize)) = some true := by
    decide
  have hop : (dumpMachine.Tick 0).state?.map (fun c => (clobberRegisters c).opcodeAt)
      = some (0xF065 + 0x100 * 2) := by
    decide
  rw [h1] at hpc hop
  simp only [Outcome.state?, Option.map_some', Option.some.injEq, decide_eq_true_eq] at hpc hop
  obtain ⟨t', g1, g2, g3, _⟩ := h5 (clobberRegisters s1) rfl h4 hpc hop
  exact ⟨s1, t', h1, h2 0 (by decide), h2 1 (by decide), h2 2 (by decide),
    h3 0x303 (Or.inr (by decide)), h4, g1, g2 0 (by decide), g2 1 (by decide),
    g2 2 (by decide), g3.trans h4⟩

/-- C12 (BCD, FX33). For a register `X` holding the 8-bit value `v` and an
index `I` with `I + 2` inside memory, a tick whose fetched opcode is `FX33`
succeeds and writes digits `h`, `t`, `u`, each in `0..9`, with
`100 * h + 10 * t + u = v`, at `memory[I]`, `memory[I + 1]`, `memory[I + 2]`;
no other memory byte, no register `V0..VF` and not `I` changes. -/
theorem bcd_spec (rnd : Nat) (s : Chip8) (X : Nat) (hX : X < 16)
    (hpc : s.cpu.PC + 1 < RamSize) (hop : s.opcodeAt = 0xF033 + 0x100 * X)
    (hv : s.cpu.V X < 256) (hI : s.cpu.I + 2 < RamSize) :
    ∃ s' h t u, s.Tick rnd = Outcome.ok s' ∧ h ≤ 9 ∧ t ≤ 9 ∧ u ≤ 9 ∧
      100 * h + 10 * t + u = s.cpu.V X ∧
      s'.ram s.cpu.I = h ∧ s'.ram (s.cpu.I + 1) = t ∧ s'.ram (s.cpu.I + 2) = u ∧
      (∀ a, a ≠ s.cpu.I → a ≠ s.cpu.I + 1 → a ≠ s.cpu.I + 2 → s'.ram a = s.ram a) ∧
      s'.cpu.V = s.cpu.V ∧ s'.cpu.I = s.cpu.I := by
  have hRam : RamSize = 4000 := rfl
  have hfam : s.opcodeAt &&& 0xF000 = 0xf000 := by
    rw [and_F000, hop]
    omega
  have hlow : s.opcodeAt &&& 0x00FF = 0x0033 := by
    rw [and_00FF, hop]
    omega
  have hx : s.fetched.opX = X := by
    rw [fetched_opX, hop]
    omega
  have a0 : s.cpu.I % 65536 = s.cpu.I := by omega
  have a1 : (s.cpu.I + 1) % 65536 = s.cpu.I + 1 := by omega
  have a2 : (s.cpu.I + 2) % 65536 = s.cpu.I + 2 := by omega
  have b0 : s.cpu.I < RamSize := by omega
  have b1 : s.cpu.I + 1 < RamSize := by omega
  have hbcd : s.fetched.vxToRAM = some ({ s.fetched with
      ram := store (store (store s.ram s.cpu.I (s.cpu.V X / 100)) (s.cpu.I + 1)
        (s.cpu.V X / 10 % 10)) (s.cpu.I + 2) (s.cpu.V X % 100 % 10) }.advance 2) := by
    unfold vxToRAM setRam
    simp only [fetched_cpu, fetched_ram, a0, a1, a2, b0, b1, hI, if_true]
    subst hx
    rfl
  have hd : s.fetched.decodeExecute rnd = Outcome.ok ({ s.fetched with
      ram := store (store (store s.ram s.cpu.I (s.cpu.V X / 100)) (s.cpu.I + 1)
        (s.cpu.V X / 10 % 10)) (s.cpu.I + 2) (s.cpu.V X % 100 % 10) }.advance 2) := by
    simp [decodeExecute, fxSwitch, hfam, hlow, hbcd, Outcome.ofOption]
  refine ⟨_, s.cpu.V X / 100, s.cpu.V X / 10 % 10, s.cpu.V X % 100 % 10,
    Tick_ok_of rnd s _ hpc hd, by omega, by omega, by omega, by omega, ?_, ?_, ?_, ?_, ?_, ?_⟩
  · rw [tickTimers_ram, advance_ram]
    show store (store (store s.ram s.cpu.I _) _ _) _ _ s.cpu.I = _
    rw [store_other _ _ _ _ (by omega), store_other _ _ _ _ (by omega), store_same]
  · rw [tickTimers_ram, advance_ram]
    show store (store (store s.ram s.cpu.I _) _ _) _ _ (s.cpu.I + 1) = _
    rw [store_other _ _ _ _ (by omega), store_same]
  · rw [tickTimers_ram, advance_ram]
    show store (store (store s.ram s.cpu.I _) _ _) _ _ (s.cpu.I + 2) = _
    rw [store_same]
  · intro a h0 h1 h2
    rw [tickTimers_ram, advance_ram]
    show store (store (store s.ram s.cpu.I _) _ _) _ _ a = _
    rw [store_other _ _ _ _ h2, store_other _ _ _ _ h1, store_other _ _ _ _ h0]
  · rw [tickTimers_V, advance_V]
    rfl
  · rw [tickTimers_I, advance_I]
    rfl

/-- Instance of `bcd_spec` with `v = 235`: the bytes written at `I`, `I + 1`,
`I + 2` are 2, 3, 5. -/
theorem bcd_spec_witness :
    ∃ s', bcdMachine.Tick 0 = Outcome.ok s' ∧ s'.ram 0x300 = 2 ∧ s'.ram 0x301 = 3 ∧
      s'.ram 0x302 = 5 ∧ s'.ram 0x303 = bcdMachine.ram 0x303 ∧
      s'.cpu.V = bcdMachine.cpu.V ∧ s'.cpu.I = bcdMachine.cpu.I := by
  obtain ⟨s', h, t, u, hT, hh, ht, hu, hsum, r0, r1, r2, rest, hV, hI⟩ :=
    bcd_spec 0 bcdMachine 4 (by decide) (by decide) (by decide) (by decide) (by decide)
  have hval : bcdMachine.cpu.V 4 = 235 := by decide
  have hIv : bcdMachine.cpu.I = 0x300 := by decide
  rw [hval] at hsum
  rw [hIv] at r0 r1 r2
  refine ⟨s', hT, ?_, ?_, ?_, rest 0x303 (by decide) (by decide) (by decide), hV, hI⟩
  · rw [r0]
    omega
  · rw [r1]
    omega
  · rw [r2]
    omega

end Chip8

/-! ## What the handlers leave alone: timers and framebuffer cells -/

namespace Chip8

theorem Keeps.refl (c : Chip8) : Keeps c c :=
  ⟨rfl, rfl, id⟩

theorem Keeps.trans {a b c : Chip8} (h1 : Keeps a b) (h2 : Keeps b c) : Keeps a c :=
  ⟨h2.1.trans h1.1, h2.2.1.trans h1.2.1, fun h => h2.2.2 (h1.2.2 h)⟩

theorem keeps_foldl (f : Chip8 → Nat → Chip8) (hf : ∀ c i, Keeps c (f c i)) (l : List Nat) :
    ∀ c, Keeps c (l.foldl f c) := by
  induction l with
  | nil =>
    intro c
    exact Keeps.refl c
  | cons i l ih =>
    intro c
    rw [List.foldl_cons]
    exact (hf c i).trans (ih _)

theorem keeps_foldlM (f : Chip8 → Nat → Option Chip8)
    (hf : ∀ c i c', f c i = some c' → Keeps c c') (l : List Nat) :
    ∀ c c', l.foldlM f c = some c' → Keeps c c' := by
  induction l with
  | nil =>
    intro c c' h
    simp only [List.foldlM_nil, pure, Option.some.injEq] at h
    rw [← h]
    exact Keeps.refl c
  | cons i l ih =>
    intro c c' h
    rw [List.foldlM_cons] at h
    cases hstep : f c i with
    | none =>
      rw [hstep] at h
      cases h
    | some c1 =>
      rw [hstep] at h
      exact (hf c i c1 hstep).trans (ih c1 c' h)

theorem keeps_callRCA1802 (c : Chip8) : Keeps c c.callRCA1802 := ⟨rfl, rfl, id⟩

theorem keeps_clearScreen (c : Chip8) : Keeps c c.clearScreen :=
  ⟨rfl, rfl, fun _ _ => Or.inl rfl⟩

theorem keeps_jump (c : Chip8) : Keeps c c.jump := ⟨rfl, rfl, id⟩

theorem keeps_skipIf (c : Chip8) : Keeps c c.skipIf := by
  unfold skipIf
  dsimp only
  split_ifs <;> exact ⟨rfl, rfl, id⟩

theorem keeps_skipIfNot (c : Chip8) : Keeps c c.skipIfNot := by
  unfold skipIfNot
  dsimp only
  split_ifs <;> exact ⟨rfl, rfl, id⟩

theorem keeps_skipIfReg (c : Chip8) : Keeps c c.skipIfReg := by
  unfold skipIfReg
  dsimp only
  split_ifs <;> exact ⟨rfl, rfl, id⟩

theorem keeps_skipIfNotReg (c : Chip8) : Keeps c c.skipIfNotReg := by
  unfold skipIfNotReg
  dsimp only
  split_ifs <;> exact ⟨rfl, rfl, id⟩

theorem keeps_setRegister (c : Chip8) : Keeps c c.setRegister := ⟨rfl, rfl, id⟩

theorem keeps_addRegister (c : Chip8) : Keeps c c.addRegister := ⟨rfl, rfl, id⟩

theorem keeps_assign (c : Chip8) : Keeps c c.assign := ⟨rfl, rfl, id⟩

theorem keeps_or (c : Chip8) : Keeps c c.or := ⟨rfl, rfl, id⟩

theorem keeps_and (c : Chip8) : Keeps c c.and := ⟨rfl, rfl, id⟩

theorem keeps_xor (c : Chip8) : Keeps c c.xor := ⟨rfl, rfl, id⟩

theorem keeps_add (c : Chip8) : Keeps c c.add := by
  rw [add_eq]
  exact ⟨rfl, rfl, id⟩

theorem keeps_sub (c : Chip8) : Keeps c c.sub := by
  rw [sub_eq]
  exact ⟨rfl, rfl, id⟩

theorem keeps_shiftr (c : Chip8) : Keeps c c.shiftr := ⟨rfl, rfl, id⟩

theorem keeps_vxSubVy (c : Chip8) : Keeps c c.vxSubVy := by
  unfold vxSubVy
  dsimp only
  split_ifs <;> exact ⟨rfl, rfl, id⟩

theorem keeps_shiftl (c : Chip8) : Keeps c c.shiftl := ⟨rfl, rfl, id⟩

theorem keeps_setIndex (c : Chip8) : Keeps c c.setIndex := ⟨rfl, rfl, id⟩

theorem keeps_jumpToVZPlus (c : Chip8) : Keeps c c.jumpToVZPlus := ⟨rfl, rfl, id⟩

theorem keeps_rand (rnd : Nat) (c : Chip8) : Keeps c (c.rand rnd) := ⟨rfl, rfl, id⟩

theorem keeps_delayToVx (c : Chip8) : Keeps c c.delayToVx := ⟨rfl, rfl, id⟩

theorem keeps_waitForInput (c : Chip8) : Keeps c c.waitForInput := by
  unfold waitForInput
  apply keeps_foldl
  intro c i
  unfold waitForInputStep
  split_ifs <;> exact ⟨rfl, rfl, id⟩

theorem keeps_addVxToI (c : Chip8) : Keeps c c.addVxToI := ⟨rfl, rfl, id⟩

theorem keeps_setCharToI (c : Chip8) : Keeps c c.setCharToI := ⟨rfl, rfl, id⟩

theorem keeps_returnFromSubroutine (c c' : Chip8) (h : c.returnFromSubroutine = some c') :
    Keeps c c' := by
  unfold returnFromSubroutine at h
  split_ifs at h
  simp only [Option.some.injEq] at h
  rw [← h]
  exact ⟨rfl, rfl, id⟩

theorem keeps_callFunc (c c' : Chip8) (h : c.callFunc = some c') : Keeps c c' := by
  unfold callFunc at h
  dsimp only at h
  split_ifs at h
  simp only [Option.some.injEq] at h
  rw [← h]
  exact ⟨rfl, rfl, id⟩

theorem keeps_skipIfKeyPressed (c c' : Chip8) (h : c.skipIfKeyPressed = some c') :
    Keeps c c' := by
  unfold skipIfKeyPressed at h
  split_ifs at h <;> simp only [Option.some.injEq] at h <;> rw [← h] <;> exact ⟨rfl, rfl, id⟩

theorem keeps_skipIfKeyNotPressed (c c' : Chip8) (h : c.skipIfKeyNotPressed = some c') :
    Keeps c c' := by
  unfold skipIfKeyNotPressed at h
  split_ifs at h <;> simp only [Option.some.injEq] at h <;> rw [← h] <;> exact ⟨rfl, rfl, id⟩

theorem keeps_setRam (c c' : Chip8) (addr v : Nat) (h : c.setRam addr v = some c') :
    Keeps c c' := by
  unfold setRam at h
  split_ifs at h
  simp only [Option.some.injEq] at h
  rw [← h]
  exact ⟨rfl, rfl, id⟩

theorem keeps_vxToRAM (c c' : Chip8) (h : c.vxToRAM = some c') : Keeps c c' := by
  unfold vxToRAM at h
  cases h1 : c.setRam c.cpu.I (c.cpu.V c.opX / 100) with
  | none =>
    rw [h1] at h
    cases h
  | some c1 =>
    rw [h1] at h
    dsimp only at h
    cases h2 : c1.setRam (c1.cpu.I + 1) (c1.cpu.V c1.opX / 10 % 10) with
    | none =>
      rw [h2] at h
      cases h
    | some c2 =>
      rw [h2] at h
      dsimp only at h
      cases h3 : c2.setRam (c2.cpu.I + 2) (c2.cpu.V c2.opX % 100 % 10) with
      | none =>
        rw [h3] at h
        cases h
      | some c3 =>
        rw [h3] at h
        simp only [Option.some.injEq] at h
        rw [← h]
        exact ((keeps_setRam _ _ _ _ h1).trans (keeps_setRam _ _ _ _ h2)).trans
          ((keeps_setRam _ _ _ _ h3).trans ⟨rfl, rfl, id⟩)

theorem keeps_regDump (c c' : Chip8) (h : c.regDump = some c') : Keeps c c' := by
  unfold regDump at h
  dsimp only at h
  cases hl : (List.range (c.opX + 1)).foldlM regDumpStep c with
  | none =>
    rw [hl] at h
    cases h
  | some c1 =>
    rw [hl] at h
    simp only [Option.some.injEq] at h
    rw [← h]
    exact (keeps_foldlM regDumpStep (fun a i b hab => keeps_setRam a b _ _ hab) _ _ _ hl).trans
      ⟨rfl, rfl, id⟩

theorem keeps_regLoadStep (c c' : Chip8) (i : Nat) (h : regLoadStep c i = some c') :
    Keeps c c' := by
  unfold regLoadStep at h
  split_ifs at h
  simp only [Option.some.injEq] at h
  rw [← h]
  exact ⟨rfl, rfl, id⟩

theorem keeps_regLoad (c c' : Chip8) (h : c.regLoad = some c') : Keeps c c' := by
  unfold regLoad at h
  dsimp only at h
  cases hl : (List.range (c.opX + 1)).foldlM regLoadStep c with
  | none =>
    rw [hl] at h
    cases h
  | some c1 =>
    rw [hl] at h
    simp only [Option.some.injEq] at h
    rw [← h]
    exact (keeps_foldlM regLoadStep (fun a i b hab => keeps_regLoadStep a b i hab) _ _ _ hl).trans
      ⟨rfl, rfl, id⟩

theorem xor_one_binary (v : Nat) (h : v = 0 ∨ v = 1) : v ^^^ 1 = 0 ∨ v ^^^ 1 = 1 := by
  rcases h with h | h
  · right
    rw [h]
    rfl
  · left
    rw [h]
    rfl

theorem keeps_drawPixel (x y r pixel : Nat) (c : Chip8) (col : Nat) :
    Keeps c (drawPixel x y r pixel c col) := by
  unfold drawPixel
  dsimp only
  split_ifs
  · refine ⟨rfl, rfl, fun hb p => ?_⟩
    show store c.display _ _ p = 0 ∨ store c.display _ _ p = 1
    unfold store
    split_ifs
    · exact xor_one_binary _ (hb _)
    · exact hb p
  · refine ⟨rfl, rfl, fun hb p => ?_⟩
    show store c.display _ _ p = 0 ∨ store c.display _ _ p = 1
    unfold store
    split_ifs
    · exact xor_one_binary _ (hb _)
    · exact hb p
  · exact Keeps.refl c

theorem keeps_drawRow (x y : Nat) (c : Chip8) (r : Nat) (c' : Chip8)
    (h : drawRow x y c r = some c') : Keeps c c' := by
  unfold drawRow at h
  dsimp only at h
  split_ifs at h
  simp only [Option.some.injEq] at h
  rw [← h]
  exact keeps_foldl _ (fun a i => keeps_drawPixel x y r _ a i) _ c

theorem keeps_draw (c c' : Chip8) (h : c.draw = some c') : Keeps c c' := by
  unfold draw at h
  dsimp only at h
  cases hl : (List.range (c.opcode &&& 0x000F)).foldlM
      (drawRow (c.cpu.V c.opX) (c.cpu.V c.opY)) (c.setV 0xF 0) with
  | none =>
    rw [hl] at h
    cases h
  | some c1 =>
    rw [hl] at h
    simp only [Option.some.injEq] at h
    rw [← h]
    have h0 : Keeps c (c.setV 0xF 0) := ⟨rfl, rfl, id⟩
    exact (h0.trans (keeps_foldlM _ (fun a i b hab => keeps_drawRow _ _ a i b hab) _ _ _ hl)).trans
      ⟨rfl, rfl, id⟩

end Chip8

namespace Chip8

theorem ite_ok {Q : Chip8 → Prop} {p : Prop} [Decidable p] {a b : Outcome}
    (ha : p → ∀ c', a = Outcome.ok c' → Q c') (hb : ¬ p → ∀ c', b = Outcome.ok c' → Q c') :
    ∀ c', (if p then a else b) = Outcome.ok c' → Q c' := by
  intro c' h
  split_ifs at h with hp
  · exact ha hp c' h
  · exact hb hp c' h

theorem ok_ok {Q : Chip8 → Prop} {x : Chip8} (h : Q x) :
    ∀ c', Outcome.ok x = Outcome.ok c' → Q c' := by
  intro c' heq
  simp only [Outcome.ok.injEq] at heq
  rw [← heq]
  exact h

theorem ofOption_ok {Q : Chip8 → Prop} {o : Option Chip8} (h : ∀ x, o = some x → Q x) :
    ∀ c', Outcome.ofOption o = Outcome.ok c' → Q c' := by
  intro c' heq
  cases o with
  | none => cases heq
  | some x =>
    simp only [Outcome.ofOption, Outcome.ok.injEq] at heq
    rw [← heq]
    exact h x rfl

theorem err_ok {Q : Chip8 → Prop} (c : Chip8) :
    ∀ c', c.unknowOpCodeErr = Outcome.ok c' → Q c' := by
  intro c' heq
  cases heq

theorem fault_ok {Q : Chip8 → Prop} : ∀ c', Outcome.fault = Outcome.ok c' → Q c' := by
  intro c' heq
  cases heq

theorem zxSwitch_keeps (c : Chip8) : ∀ c', c.zxSwitch = Outcome.ok c' → Keeps c c' := by
  unfold zxSwitch
  refine ite_ok (fun _ => ok_ok (keeps_clearScreen c)) (fun _ => ?_)
  refine ite_ok (fun _ => ofOption_ok (keeps_returnFromSubroutine c)) (fun _ => ?_)
  exact ite_ok (fun _ => ok_ok (keeps_callRCA1802 c)) (fun _ => err_ok c)

theorem eightxSwitch_keeps (c : Chip8) :
    ∀ c', c.eightxSwitch = Outcome.ok c' → Keeps c c' := by
  unfold eightxSwitch
  refine ite_ok (fun _ => ok_ok (keeps_assign c)) (fun _ => ?_)
  refine ite_ok (fun _ => ok_ok (keeps_or c)) (fun _ => ?_)
  refine ite_ok (fun _ => ok_ok (keeps_and c)) (fun _ => ?_)
  refine ite_ok (fun _ => ok_ok (keeps_xor c)) (fun _ => ?_)
  refine ite_ok (fun _ => ok_ok (keeps_add c)) (fun _ => ?_)
  refine ite_ok (fun _ => ok_ok (keeps_sub c)) (fun _ => ?_)
  refine ite_ok (fun _ => ok_ok (keeps_shiftr c)) (fun _ => ?_)
  refine ite_ok (fun _ => ok_ok (keeps_vxSubVy c)) (fun _ => ?_)
  exact ite_ok (fun _ => ok_ok (keeps_shiftl c)) (fun _ => err_ok c)

theorem exSwitch_keeps (c : Chip8) : ∀ c', c.exSwitch = Outcome.ok c' → Keeps c c' := by
  unfold exSwitch
  refine ite_ok (fun _ => ofOption_ok (keeps_skipIfKeyPressed c)) (fun _ => ?_)
  exact ite_ok (fun _ => ofOption_ok (keeps_skipIfKeyNotPressed c)) (fun _ => err_ok c)

/-- The handlers of the 0xF family: only `FX15` writes the delay timer, only
`FX18` writes the sound timer, none writes the framebuffer. -/
theorem fxSwitch_timers (c : Chip8) :
    ∀ c', c.fxSwitch = Outcome.ok c' →
      (c.opcode &&& 0x00FF ≠ 0x0015 → c'.cpu.DelayTimer = c.cpu.DelayTimer) ∧
      (c.opcode &&& 0x00FF ≠ 0x0018 → c'.cpu.SoundTimer = c.cpu.SoundTimer) ∧
      (Binary c.display → Binary c'.display) := by
  have k : ∀ c', Keeps c c' →
      (c.opcode &&& 0x00FF ≠ 0x0015 → c'.cpu.DelayTimer = c.cpu.DelayTimer) ∧
      (c.opcode &&& 0x00FF ≠ 0x0018 → c'.cpu.SoundTimer = c.cpu.SoundTimer) ∧
      (Binary c.display → Binary c'.display) :=
    fun c' h => ⟨fun _ => h.1, fun _ => h.2.1, h.2.2⟩
  unfold fxSwitch
  refine ite_ok (fun _ => ok_ok (k _ (keeps_delayToVx c))) (fun _ => ?_)
  refine ite_ok (fun _ => ok_ok (k _ (keeps_waitForInput c))) (fun _ => ?_)
  refine ite_ok (fun h15 => ok_ok ⟨fun hne => absurd h15 hne, fun _ => rfl, id⟩) (fun _ => ?_)
  refine ite_ok (fun h18 => ok_ok ⟨fun _ => rfl, fun hne => absurd h18 hne, id⟩) (fun _ => ?_)
  refine ite_ok (fun _ => ok_ok (k _ (keeps_addVxToI c))) (fun _ => ?_)
  refine ite_ok (fun _ => ok_ok (k _ (keeps_setCharToI c))) (fun _ => ?_)
  refine ite_ok (fun _ => ofOption_ok (fun x hx => k x (keeps_vxToRAM c x hx))) (fun _ => ?_)
  refine ite_ok (fun _ => ofOption_ok (fun x hx => k x (keeps_regDump c x hx))) (fun _ => ?_)
  exact ite_ok (fun _ => ofOption_ok (fun x hx => k x (keeps_regLoad c x hx)))
    (fun _ => err_ok c)

/-- A handler that returns nil leaves the delay timer alone unless the opcode
is `FX15`, leaves the sound timer alone unless the opcode is `FX18`, and keeps
the framebuffer cells in `{0, 1}`. -/
theorem decodeExecute_timers (rnd : Nat) (c : Chip8) :
    ∀ c', c.decodeExecute rnd = Outcome.ok c' →
      (¬ (c.opcode &&& 0xF000 = 0xf000 ∧ c.opcode &&& 0x00FF = 0x0015) →
        c'.cpu.DelayTimer = c.cpu.DelayTimer) ∧
      (¬ (c.opcode &&& 0xF000 = 0xf000 ∧ c.opcode &&& 0x00FF = 0x0018) →
        c'.cpu.SoundTimer = c.cpu.SoundTimer) ∧
      (Binary c.display → Binary c'.display) := by
  have k : ∀ c', Keeps c c' →
      (¬ (c.opcode &&& 0xF000 = 0xf000 ∧ c.opcode &&& 0x00FF = 0x0015) →
        c'.cpu.DelayTimer = c.cpu.DelayTimer) ∧
      (¬ (c.opcode &&& 0xF000 = 0xf000 ∧ c.opcode &&& 0x00FF = 0x0018) →
        c'.cpu.SoundTimer = c.cpu.SoundTimer) ∧
      (Binary c.display → Binary c'.display) :=
    fun c' h => ⟨fun _ => h.1, fun _ => h.2.1, h.2.2⟩
  unfold decodeExecute
  dsimp only
  refine ite_ok (fun _ c' h => k c' (zxSwitch_keeps c c' h)) (fun _ => ?_)
  refine ite_ok (fun _ => ok_ok (k _ (keeps_jump c))) (fun _ => ?_)
  refine ite_ok (fun _ => ofOption_ok (fun x hx => k x (keeps_callFunc c x hx))) (fun _ => ?_)
  refine ite_ok (fun _ => ok_ok (k _ (keeps_skipIf c))) (fun _ => ?_)
  refine ite_ok (fun _ => ok_ok (k _ (keeps_skipIfNot c))) (fun _ => ?_)
  refine ite_ok (fun _ => ok_ok (k _ (keeps_skipIfReg c))) (fun _ => ?_)
  refine ite_ok (fun _ => ok_ok (k _ (keeps_setRegister c))) (fun _ => ?_)
  refine ite_ok (fun _ => ok_ok (k _ (keeps_addRegister c))) (fun _ => ?_)
  refine ite_ok (fun _ c' h => k c' (eightxSwitch_keeps c c' h)) (fun _ => ?_)
  refine ite_ok (fun _ => ok_ok (k _ (keeps_skipIfNotReg c))) (fun _ => ?_)
  refine ite_ok (fun _ => ok_ok (k _ (keeps_setIndex c))) (fun _ => ?_)
  refine ite_ok (fun _ => ok_ok (k _ (keeps_jumpToVZPlus c))) (fun _ => ?_)
  refine ite_ok (fun _ => ok_ok (k _ (keeps_rand rnd c))) (fun _ => ?_)
  refine ite_ok (fun _ => ofOption_ok (fun x hx => k x (keeps_draw c x hx))) (fun _ => ?_)
  refine ite_ok (fun _ c' h => k c' (exSwitch_keeps c c' h)) (fun _ => ?_)
  refine ite_ok (fun hF c' h => ?_) (fun _ => fault_ok)
  obtain ⟨h1, h2, h3⟩ := fxSwitch_timers c c' h
  exact ⟨fun hn => h1 (fun hlow => hn ⟨hF, hlow⟩), fun hn => h2 (fun hlow => hn ⟨hF, hlow⟩), h3⟩

/-- A successful tick, in terms of the handler's result. -/
theorem Tick_ok_inv (rnd : Nat) (s s' : Chip8) (h : s.Tick rnd = Outcome.ok s') :
    ∃ c, s.fetched.decodeExecute rnd = Outcome.ok c ∧ s' = c.tickTimers := by
  unfold Tick at h
  cases hf : s.fetch with
  | none =>
    rw [hf] at h
    cases h
  | some c0 =>
    have hc : c0 = s.fetched := by
      unfold fetch at hf
      split_ifs at hf
      simp only [Option.some.injEq] at hf
      exact hf.symm
    subst hc
    rw [hf] at h
    dsimp only at h
    cases hd : s.fetched.decodeExecute rnd with
    | ok c2 =>
      rw [hd] at h
      simp only [Outcome.ok.injEq] at h
      exact ⟨c2, rfl, h.symm⟩
    | fault =>
      rw [hd] at h
      cases h
    | err raw c2 =>
      rw [hd] at h
      cases h

/-- A tick that returns an error leaves the machine as fetched. -/
theorem Tick_err_inv (rnd raw : Nat) (s s' : Chip8) (h : s.Tick rnd = Outcome.err raw s') :
    s' = s.fetched := by
  unfold Tick at h
  cases hf : s.fetch with
  | none =>
    rw [hf] at h
    cases h
  | some c0 =>
    have hc : c0 = s.fetched := by
      unfold fetch at hf
      split_ifs at hf
      simp only [Option.some.injEq] at hf
      exact hf.symm
    subst hc
    rw [hf] at h
    dsimp only at h
    cases hd : s.fetched.decodeExecute rnd with
    | ok c2 =>
      rw [hd] at h
      cases h
    | fault =>
      rw [hd] at h
      cases h
    | err raw2 c2 =>
      rw [hd] at h
      simp only [Outcome.err.injEq] at h
      rw [← h.2]
      exact (decodeExecute_err rnd _ _ _ hd).2

theorem tickTimers_DelayTimer (c : Chip8) :
    c.tickTimers.cpu.DelayTimer = c.cpu.DelayTimer - 1 := by
  unfold tickTimers setCpu
  dsimp only
  split_ifs with h1 h2 h2
  · rfl
  · rfl
  · show c.cpu.DelayTimer = c.cpu.DelayTimer - 1
    omega
  · show c.cpu.DelayTimer = c.cpu.DelayTimer - 1
    omega

theorem tickTimers_SoundTimer (c : Chip8) :
    c.tickTimers.cpu.SoundTimer = c.cpu.SoundTimer - 1 := by
  unfold tickTimers setCpu
  dsimp only
  split_ifs with h1 h2 h2
  · rfl
  · show c.cpu.SoundTimer = c.cpu.SoundTimer - 1
    have : c.cpu.SoundTimer = 0 := by
      have h3 : ¬ c.cpu.SoundTimer > 0 := h2
      omega
    omega
  · rfl
  · show c.cpu.SoundTimer = c.cpu.SoundTimer - 1
    omega

end Chip8

/-! ## Timers and framebuffer invariant -/

namespace Chip8

/-- One successful tick: the delay timer loses 1 (stopping at 0) unless the
instruction is `FX15`, the sound timer loses 1 unless it is `FX18`, and
framebuffer cells stay in `{0, 1}`. -/
theorem Tick_timers (rnd : Nat) (s s' : Chip8) (h : s.Tick rnd = Outcome.ok s') :
    (¬ (s.opcodeAt &&& 0xF000 = 0xf000 ∧ s.opcodeAt &&& 0x00FF = 0x0015) →
      s'.cpu.DelayTimer = s.cpu.DelayTimer - 1) ∧
    (¬ (s.opcodeAt &&& 0xF000 = 0xf000 ∧ s.opcodeAt &&& 0x00FF = 0x0018) →
      s'.cpu.SoundTimer = s.cpu.SoundTimer - 1) ∧
    (Binary s.display → Binary s'.display) := by
  obtain ⟨c, hd, hs⟩ := Tick_ok_inv rnd s s' h
  obtain ⟨h1, h2, h3⟩ := decodeExecute_timers rnd s.fetched c hd
  rw [fetched_opcode] at h1 h2
  subst hs
  refine ⟨fun hn => ?_, fun hn => ?_, fun hb => ?_⟩
  · rw [tickTimers_DelayTimer, h1 hn]
    rfl
  · rw [tickTimers_SoundTimer, h2 hn]
    rfl
  · rw [tickTimers_display]
    exact h3 hb

/-- C17 (timers). Along any run of `n` successful ticks `st 0, st 1, ..., st n`:
if no executed instruction is `FX15`, every tick takes the delay timer from
`d` to `d - 1` when `d > 0` and leaves it at 0 when `d = 0`, and after the `n`
ticks it equals `max (d - n) 0`; the same holds for the sound timer when no
executed instruction is `FX18`. -/
theorem timers_count_down (rnd : Nat → Nat) (st : Nat → Chip8) (n : Nat)
    (hrun : ∀ k, k < n → (st k).Tick (rnd k) = Outcome.ok (st (k + 1))) :
    ((∀ k, k < n →
        ¬ ((st k).opcodeAt &&& 0xF000 = 0xf000 ∧ (st k).opcodeAt &&& 0x00FF = 0x0015)) →
      (∀ k, k < n → (st (k + 1)).cpu.DelayTimer =
        if (st k).cpu.DelayTimer > 0 then (st k).cpu.DelayTimer - 1 else 0) ∧
      ((st n).cpu.DelayTimer : Int) = max (((st 0).cpu.DelayTimer : Int) - n) 0) ∧
    ((∀ k, k < n →
        ¬ ((st k).opcodeAt &&& 0xF000 = 0xf000 ∧ (st k).opcodeAt &&& 0x00FF = 0x0018)) →
      (∀ k, k < n → (st (k + 1)).cpu.SoundTimer =
        if (st k).cpu.SoundTimer > 0 then (st k).cpu.SoundTimer - 1 else 0) ∧
      ((st n).cpu.SoundTimer : Int) = max (((st 0).cpu.SoundTimer : Int) - n) 0) := by
  constructor
  · intro hno
    have step : ∀ k, k < n → (st (k + 1)).cpu.DelayTimer = (st k).cpu.DelayTimer - 1 :=
      fun k hk => (Tick_timers (rnd k) (st k) (st (k + 1)) (hrun k hk)).1 (hno k hk)
    have total : ∀ m, m ≤ n → (st m).cpu.DelayTimer = (st 0).cpu.DelayTimer - m := by
      intro m
      induction m with
      | zero =>
        intro _
        rfl
      | succ m ih =>
        intro hm
        rw [step m (by omega), ih (by omega)]
        omega
    refine ⟨fun k hk => ?_, ?_⟩
    · rw [step k hk]
      split_ifs <;> omega
    · rw [total n (le_refl n)]
      omega
  · intro hno
    have step : ∀ k, k < n → (st (k + 1)).cpu.SoundTimer = (st k).cpu.SoundTimer - 1 :=
      fun k hk => (Tick_timers (rnd k) (st k) (st (k + 1)) (hrun k hk)).2.1 (hno k hk)
    have total : ∀ m, m ≤ n → (st m).cpu.SoundTimer = (st 0).cpu.SoundTimer - m := by
      intro m
      induction m with
      | zero =>
        intro _
        rfl
      | succ m ih =>
        intro hm
        rw [step m (by omega), ih (by omega)]
        omega
    refine ⟨fun k hk => ?_, ?_⟩
    · rw [step k hk]
      split_ifs <;> omega
    · rw [total n (le_refl n)]
      omega

theorem timerStates_run : ∀ k, k < 7 →
    (timerStates k).Tick 0 = Outcome.ok (timerStates (k + 1)) := by
  intro k hk
  interval_cases k <;> rfl

theorem timerStates_opcode : ∀ k, k < 7 → (timerStates k).opcodeAt = 0x1200 := by
  intro k hk
  interval_cases k <;> decide

/-- Instance of `timers_count_down`: from both timers at 5, the machine looping
on the jump `1200` has both timers at 0 after five ticks and still at 0 after
seven. -/
theorem timers_count_down_witness :
    (timerStates 0).cpu.DelayTimer = 5 ∧ (timerStates 0).cpu.SoundTimer = 5 ∧
    (timerStates 5).cpu.DelayTimer = 0 ∧ (timerStates 7).cpu.DelayTimer = 0 ∧
    (timerStates 5).cpu.SoundTimer = 0 ∧ (timerStates 7).cpu.SoundTimer = 0 := by
  have hno15 : ∀ m, ∀ k, k < m → m ≤ 7 → ¬ ((timerStates k).opcodeAt &&& 0xF000 = 0xf000 ∧
      (timerStates k).opcodeAt &&& 0x00FF = 0x0015) := by
    intro m k hk hm
    rw [timerStates_opcode k (by omega)]
    decide
  have hno18 : ∀ m, ∀ k, k < m → m ≤ 7 → ¬ ((timerStates k).opcodeAt &&& 0xF000 = 0xf000 ∧
      (timerStates k).opcodeAt &&& 0x00FF = 0x0018) := by
    intro m k hk hm
    rw [timerStates_opcode k (by omega)]
    decide
  have h5 := timers_count_down (fun _ => 0) timerStates 5
    (fun k hk => timerStates_run k (by omega))
  have h7 := timers_count_down (fun _ => 0) timerStates 7
    (fun k hk => timerStates_run k (by omega))
  have d0 : (timerStates 0).cpu.DelayTimer = 5 := by decide
  have s0 : (timerStates 0).cpu.SoundTimer = 5 := by decide
  have a5 := (h5.1 (fun k hk => hno15 5 k hk (by omega))).2
  have a7 := (h7.1 (fun k hk => hno15 7 k hk (by omega))).2
  have b5 := (h5.2 (fun k hk => hno18 5 k hk (by omega))).2
  have b7 := (h7.2 (fun k hk => hno18 7 k hk (by omega))).2
  rw [d0] at a5 a7
  rw [s0] at b5 b7
  refine ⟨d0, s0, ?_, ?_, ?_, ?_⟩ <;> omega

theorem binary_New (fontMap program : List Nat) : Binary (New fontMap program).display :=
  fun _ => Or.inl rfl

/-- C20 (framebuffer cells are bits). The framebuffer of a freshly constructed
machine has every cell 0 or 1; every successful tick preserves this; hence it
holds in every machine reachable from construction by ticks, `SetKey`,
`SetAudio` and `CheckDraw`. -/
theorem framebuffer_binary (fontMap program : List Nat) :
    Binary (New fontMap program).display ∧
    (∀ (rnd : Nat) (s s' : Chip8), Binary s.display → s.Tick rnd = Outcome.ok s' →
      Binary s'.display) ∧
    (∀ c, Reachable fontMap program c → Binary c.display) := by
  refine ⟨binary_New fontMap program,
    fun rnd s s' hb hT => (Tick_timers rnd s s' hT).2.2 hb, ?_⟩
  intro c hc
  induction hc with
  | init => exact binary_New fontMap program
  | tick rnd c c' _ hT ih => exact (Tick_timers rnd c c' hT).2.2 ih
  | tickErr rnd raw c c' _ hT ih =>
    rw [Tick_err_inv rnd raw c c' hT]
    exact ih
  | setKey k s c c' _ hk ih =>
    unfold SetKey at hk
    split_ifs at hk <;> simp only [Option.some.injEq] at hk <;> rw [← hk] <;> exact ih
  | setAudio c _ ih => exact ih
  | checkDraw c _ ih => exact ih

/-- Instance of `framebuffer_binary`: after the sprite draw of `drawMachine`
every framebuffer cell is 0 or 1, and so is every cell of the machine reached
from the program `A200 D005` after its two ticks (a five-row sprite draw). -/
theorem framebuffer_binary_witness :
    (∃ s', drawMachine.Tick 0 = Outcome.ok s' ∧ Binary s'.display) ∧
    (∃ s1 s2, (New [] [0xA2, 0x00, 0xD0, 0x05]).Tick 0 = Outcome.ok s1 ∧
      s1.Tick 0 = Outcome.ok s2 ∧ s2.display 0 = 1 ∧ Binary s2.display) :=
  ⟨⟨_, rfl, (framebuffer_binary [] []).2.1 0 drawMachine _ (fun _ => Or.inl rfl) rfl⟩,
    ⟨_, _, rfl, rfl, by decide,
      (framebuffer_binary [] [0xA2, 0x00, 0xD0, 0x05]).2.2 _
        (Reachable.tick 0 _ _ (Reachable.tick 0 _ _ Reachable.init rfl) rfl)⟩⟩

end Chip8

/-! ## Construction: font glyphs, program load, fresh machine -/

namespace Chip8

/-- C13 (font glyph index, FX29). With `V0 = 1` and next instruction `F029` the
tick leaves `I = 5`, not `fontStartAddr + 5 * (1 & 0x0F) = 0x55`: the handler
multiplies the register by 5 and never adds the offset 0x50 at which `ram.New`
placed the font table; and in every freshly constructed memory the bytes below
0x50, where `I` then points, are 0. -/
theorem glyph_index_misses_font_base :
    glyphMachine.cpu.V 0 = 1 ∧ glyphMachine.opcodeAt = 0xF029 ∧
    (∃ s', glyphMachine.Tick 0 = Outcome.ok s' ∧ s'.cpu.I = 5 ∧
      s'.cpu.I ≠ fontStartAddr + 5 * (1 &&& 0x0F)) ∧
    (∀ (fontMap program : List Nat) (a : Nat), a < fontStartAddr →
      (New fontMap program).ram a = 0) := by
  refine ⟨by decide, by decide, ⟨_, rfl, by decide, by decide⟩, ?_⟩
  intro fontMap program a ha
  unfold fontStartAddr at ha
  have h1 : ¬ (ProgramStartAddr ≤ a ∧ a < RamSize ∧ a - ProgramStartAddr < program.length) := by
    unfold ProgramStartAddr
    omega
  have h2 : ¬ (fontStartAddr ≤ a ∧ a < RamSize ∧ a - fontStartAddr < fontMap.length) := by
    unfold fontStartAddr
    omega
  show copyInto (copyInto (fun _ => 0) RamSize fontStartAddr fontMap) RamSize ProgramStartAddr
    program a = 0
  unfold copyInto
  rw [if_neg h1, if_neg h2]

theorem New_ram (fontMap program : List Nat) :
    (New fontMap program).ram = Ram.New fontMap program := rfl

/-- Bytes of the program region after `ram.New`. -/
theorem ram_New_program (fontMap program : List Nat) (i : Nat) (hi : i < program.length)
    (hfit : ProgramStartAddr + i < RamSize) :
    Ram.New fontMap program (ProgramStartAddr + i) = program.getD i 0 := by
  have h : ProgramStartAddr ≤ ProgramStartAddr + i ∧ ProgramStartAddr + i < RamSize ∧
      ProgramStartAddr + i - ProgramStartAddr < program.length := by
    refine ⟨by omega, hfit, ?_⟩
    rw [Nat.add_sub_cancel_left]
    exact hi
  show copyInto _ RamSize ProgramStartAddr program (ProgramStartAddr + i) = _
  unfold copyInto
  rw [if_pos h, Nat.add_sub_cancel_left]

/-- Bytes of the font region after `ram.New`, for a font table that ends below
the program load offset. -/
theorem ram_New_font (fontMap program : List Nat) (j : Nat) (hj : j < fontMap.length)
    (hlen : fontStartAddr + fontMap.length ≤ ProgramStartAddr) :
    Ram.New fontMap program (fontStartAddr + j) = fontMap.getD j 0 := by
  have h1 : ¬ (ProgramStartAddr ≤ fontStartAddr + j ∧ fontStartAddr + j < RamSize ∧
      fontStartAddr + j - ProgramStartAddr < program.length) := by
    omega
  have h2 : fontStartAddr ≤ fontStartAddr + j ∧ fontStartAddr + j < RamSize ∧
      fontStartAddr + j - fontStartAddr < fontMap.length := by
    refine ⟨by omega, ?_, ?_⟩
    · unfold ProgramStartAddr at hlen
      unfold RamSize
      omega
    · rw [Nat.add_sub_cancel_left]
      exact hj
  show copyInto (copyInto _ RamSize fontStartAddr fontMap) RamSize ProgramStartAddr program
    (fontStartAddr + j) = _
  unfold copyInto
  rw [if_neg h1, if_pos h2, Nat.add_sub_cancel_left]

/-- Bytes outside the font and program regions after `ram.New`. -/
theorem ram_New_zero (fontMap program : List Nat) (a : Nat)
    (hf : ¬ (fontStartAddr ≤ a ∧ a < fontStartAddr + fontMap.length))
    (hp : ¬ (ProgramStartAddr ≤ a ∧ a < ProgramStartAddr + program.length)) :
    Ram.New fontMap program a = 0 := by
  have h1 : ¬ (ProgramStartAddr ≤ a ∧ a < RamSize ∧ a - ProgramStartAddr < program.length) := by
    omega
  have h2 : ¬ (fontStartAddr ≤ a ∧ a < RamSize ∧ a - fontStartAddr < fontMap.length) := by
    omega
  show copyInto (copyInto (fun _ => 0) RamSize fontStartAddr fontMap) RamSize ProgramStartAddr
    program a = 0
  unfold copyInto
  rw [if_neg h1, if_neg h2]

/-- Nothing is stored at or beyond the end of the memory array. -/
theorem ram_New_outside (fontMap program : List Nat) (a : Nat) (ha : RamSize ≤ a) :
    Ram.New fontMap program a = 0 := by
  have h1 : ¬ (ProgramStartAddr ≤ a ∧ a < RamSize ∧ a - ProgramStartAddr < program.length) := by
    omega
  have h2 : ¬ (fontStartAddr ≤ a ∧ a < RamSize ∧ a - fontStartAddr < fontMap.length) := by
    omega
  show copyInto (copyInto (fun _ => 0) RamSize fontStartAddr fontMap) RamSize ProgramStartAddr
    program a = 0
  unfold copyInto
  rw [if_neg h1, if_neg h2]

/-- The memory built from a program is the memory built from its first
`RamSize - ProgramStartAddr` bytes. -/
theorem ram_New_take (fontMap program : List Nat) :
    Ram.New fontMap program
      = Ram.New fontMap (program.take (RamSize - ProgramStartAddr)) := by
  funext a
  show copyInto _ RamSize ProgramStartAddr program a
    = copyInto _ RamSize ProgramStartAddr (program.take (RamSize - ProgramStartAddr)) a
  unfold copyInto
  by_cases h : ProgramStartAddr ≤ a ∧ a < RamSize ∧ a - ProgramStartAddr < program.length
  · have h' : ProgramStartAddr ≤ a ∧ a < RamSize ∧
        a - ProgramStartAddr < (program.take (RamSize - ProgramStartAddr)).length := by
      refine ⟨h.1, h.2.1, ?_⟩
      rw [List.length_take]
      have := h.2.2
      have := h.2.1
      have := h.1
      omega
    rw [if_pos h, if_pos h']
    have hlt : a - ProgramStartAddr < RamSize - ProgramStartAddr := by
      have := h.2.1
      have := h.1
      omega
    rw [List.getD_eq_getElem?_getD, List.getD_eq_getElem?_getD, List.getElem?_take, if_pos hlt]
  · have h' : ¬ (ProgramStartAddr ≤ a ∧ a < RamSize ∧
        a - ProgramStartAddr < (program.take (RamSize - ProgramStartAddr)).length) := by
      rintro ⟨g1, g2, g3⟩
      rw [List.length_take] at g3
      exact h ⟨g1, g2, by omega⟩
    rw [if_neg h, if_neg h']

/-- C14 as stated fails: constructing a machine from the 3489-byte program
`oversizeProgram` (one byte more than the 3488 that fit) does not fail; the
machine is built with `PC = 0x200`, the last memory byte holds the program's
byte 3487, and the memory equals the one built from the 3488-byte prefix: the
last program byte is dropped silently. -/
theorem oversize_program_loads_truncated :
    oversizeProgram.length > RamSize - ProgramStartAddr ∧
    (New [] oversizeProgram).cpu.PC = ProgramStartAddr ∧
    (New [] oversizeProgram).ram (RamSize - 1) = 0xAA ∧
    (New [] oversizeProgram).ram = (New [] (oversizeProgram.take 3488)).ram := by
  have hlen : oversizeProgram.length = 3489 := List.length_replicate 3489 0xAA
  refine ⟨?_, rfl, ?_, ?_⟩
  · rw [hlen]
    unfold RamSize ProgramStartAddr
    omega
  · have h := ram_New_program [] oversizeProgram 3487 (by rw [hlen]; omega)
      (by unfold RamSize ProgramStartAddr; omega)
    have e : RamSize - 1 = ProgramStartAddr + 3487 := by
      unfold RamSize ProgramStartAddr
      omega
    rw [New_ram, e, h, List.getD_eq_getElem?_getD]
    unfold oversizeProgram
    rw [List.getElem?_replicate, if_pos (by omega)]
    rfl
  · have h := ram_New_take [] oversizeProgram
    have e : RamSize - ProgramStartAddr = 3488 := by
      unfold RamSize ProgramStartAddr
      omega
    rw [e] at h
    rw [New_ram, New_ram]
    exact h

/-- C14, amended (program load). Construction has no failure path: for every
program, of any length, `ram.New` stores `program[i]` at `0x200 + i` for every
`i` with `0x200 + i` inside memory, stores nothing at or past the end of
memory, and builds the same memory as from the first `RamSize - 0x200` bytes of
the program (the rest is dropped). -/
theorem program_load_truncates (fontMap program : List Nat) :
    (New fontMap program).cpu.PC = ProgramStartAddr ∧
    (∀ i, i < program.length → ProgramStartAddr + i < RamSize →
      (New fontMap program).ram (ProgramStartAddr + i) = program.getD i 0) ∧
    (∀ a, RamSize ≤ a → (New fontMap program).ram a = 0) ∧
    (New fontMap program).ram
      = (New fontMap (program.take (RamSize - ProgramStartAddr))).ram :=
  ⟨rfl, fun i hi hfit => ram_New_program fontMap program i hi hfit,
    fun a ha => ram_New_outside fontMap program a ha, ram_New_take fontMap program⟩

/-- Instance of `program_load_truncates` on the program `12 34 56`: byte 2 is
stored at 0x202 and address 4000 holds nothing. -/
theorem program_load_truncates_witness :
    (New [] [0x12, 0x34, 0x56]).ram (ProgramStartAddr + 2) = 0x56 ∧
    (New [] [0x12, 0x34, 0x56]).ram 4000 = 0 :=
  ⟨(program_load_truncates [] [0x12, 0x34, 0x56]).2.1 2 (by decide) (by decide),
    (program_load_truncates [] [0x12, 0x34, 0x56]).2.2.1 4000 (by decide)⟩

/-- C15 (fresh machine). For a font table of 80 bytes and a program that fits
(`len ≤ RamSize - 0x200`), the constructed memory holds `program[i]` at
`0x200 + i`, the font table at `0x50 .. 0x9F` and 0 everywhere else, and the
processor has `PC = 0x200` with all registers, `I`, the stack, the stack
pointer and both timers equal to 0. -/
theorem fresh_machine_layout (fontMap program : List Nat) (hfont : fontMap.length = 80)
    (hfit : program.length ≤ RamSize - ProgramStartAddr) :
    (∀ i, i < program.length →
      (New fontMap program).ram (ProgramStartAddr + i) = program.getD i 0) ∧
    (∀ j, j < 80 → (New fontMap program).ram (fontStartAddr + j) = fontMap.getD j 0) ∧
    (∀ a, ¬ (fontStartAddr ≤ a ∧ a < fontStartAddr + 80) →
      ¬ (ProgramStartAddr ≤ a ∧ a < ProgramStartAddr + program.length) →
      (New fontMap program).ram a = 0) ∧
    (New fontMap program).cpu.PC = 0x200 ∧
    (∀ i, (New fontMap program).cpu.V i = 0) ∧ (New fontMap program).cpu.I = 0 ∧
    (∀ i, (New fontMap program).cpu.Stack i = 0) ∧ (New fontMap program).cpu.SP = 0 ∧
    (New fontMap program).cpu.DelayTimer = 0 ∧ (New fontMap program).cpu.SoundTimer = 0 := by
  refine ⟨?_, ?_, ?_, rfl, fun _ => rfl, rfl, fun _ => rfl, rfl, rfl, rfl⟩
  · intro i hi
    apply ram_New_program fontMap program i hi
    unfold RamSize ProgramStartAddr at *
    omega
  · intro j hj
    apply ram_New_font fontMap program j (by omega)
    rw [hfont]
    decide
  · intro a hf hp
    apply ram_New_zero fontMap program a _ hp
    rw [hfont]
    exact hf

/-- Instance of `fresh_machine_layout`: a font table of 80 bytes `7` and the
program `12 34 56`. -/
theorem fresh_machine_layout_witness :
    (New (List.replicate 80 7) [0x12, 0x34, 0x56]).ram 0x202 = 0x56 ∧
    (New (List.replicate 80 7) [0x12, 0x34, 0x56]).ram 0x9F = 7 ∧
    (New (List.replicate 80 7) [0x12, 0x34, 0x56]).ram 0xA0 = 0 ∧
    (New (List.replicate 80 7) [0x12, 0x34, 0x56]).cpu.PC = 0x200 := by
  have h := fresh_machine_layout (List.replicate 80 7) [0x12, 0x34, 0x56] (by decide)
    (by decide)
  exact ⟨h.1 2 (by decide), h.2.1 79 (by decide), h.2.2.1 0xA0 (by decide) (by decide),
    h.2.2.2.1⟩

end Chip8

/-! ## Memory addressing -/

namespace Chip8

theorem ite_nf {p : Prop} [Decidable p] {a b : Outcome}
    (ha : p → a ≠ Outcome.fault) (hb : ¬ p → b ≠ Outcome.fault) :
    (if p then a else b) ≠ Outcome.fault := by
  split_ifs with hp
  · exact ha hp
  · exact hb hp

theorem ok_nf (x : Chip8) : Outcome.ok x ≠ Outcome.fault := by
  intro h
  cases h

theorem err_nf (c : Chip8) : c.unknowOpCodeErr ≠ Outcome.fault := by
  intro h
  cases h

theorem ofOption_nf {o : Option Chip8} (h : ∃ x, o = some x) :
    Outcome.ofOption o ≠ Outcome.fault := by
  obtain ⟨x, hx⟩ := h
  rw [hx]
  intro h
  cases h

theorem vxToRAM_some (c : Chip8) (hI : c.cpu.I + 2 < RamSize) : ∃ x, c.vxToRAM = some x := by
  have hRam : RamSize = 4000 := rfl
  have a0 : c.cpu.I % 65536 < RamSize := by omega
  have a1 : (c.cpu.I + 1) % 65536 < RamSize := by omega
  have a2 : (c.cpu.I + 2) % 65536 < RamSize := by omega
  unfold vxToRAM setRam
  rw [if_pos a0]
  dsimp only
  rw [if_pos a1]
  dsimp only
  rw [if_pos a2]
  exact ⟨_, rfl⟩

theorem regDump_some (c : Chip8) (hI : c.cpu.I + c.opX < RamSize) :
    ∃ x, c.regDump = some x := by
  obtain ⟨r, hfold, _, _⟩ := regDump_loop c (c.opX + 1) (by omega)
  unfold regDump
  simp only [hfold]
  exact ⟨_, rfl⟩

theorem regLoad_some (c : Chip8) (hI : c.cpu.I + c.opX < RamSize) :
    ∃ x, c.regLoad = some x := by
  obtain ⟨v, hfold, _, _⟩ := regLoad_loop c (c.opX + 1) (by omega)
  unfold regLoad
  simp only [hfold]
  exact ⟨_, rfl⟩

theorem draw_some (c : Chip8) (hI : c.cpu.I + (c.opcode &&& 0x000F) ≤ RamSize) :
    ∃ x, c.draw = some x := by
  have hn : c.opcode &&& 0x000F ≤ 32 := by
    rw [and_000F]
    omega
  obtain ⟨f', d', h, _⟩ := draw_eq c hn hI
  exact ⟨_, h⟩

/-- With the memory operands of the instruction inside memory, a fault of
`decodeExecute` can only come from the stack index (return, call) or the key
index (0xE family). -/
theorem decodeExecute_no_fault (rnd : Nat) (c : Chip8)
    (hD : c.opcode &&& 0xF000 = 0xd000 → c.cpu.I + (c.opcode &&& 0x000F) ≤ RamSize)
    (hB : c.opcode &&& 0xF000 = 0xf000 → c.opcode &&& 0x00FF = 0x0033 →
      c.cpu.I + 2 < RamSize)
    (hT : c.opcode &&& 0xF000 = 0xf000 →
      (c.opcode &&& 0x00FF = 0x0055 ∨ c.opcode &&& 0x00FF = 0x0065) →
      c.cpu.I + ((c.opcode &&& 0x0F00) >>> 8) < RamSize)
    (hret : ¬ c.opcode &&& 0xF00F = 0x000E) (hcall : ¬ c.opcode &&& 0xF000 = 0x2000)
    (hkey : ¬ c.opcode &&& 0xF000 = 0xe000) :
    c.decodeExecute rnd ≠ Outcome.fault := by
  unfold decodeExecute
  dsimp only
  refine ite_nf (fun _ => ?_) (fun n0 => ?_)
  · unfold zxSwitch
    refine ite_nf (fun _ => ok_nf _) (fun _ => ?_)
    refine ite_nf (fun h => absurd h hret) (fun _ => ?_)
    exact ite_nf (fun _ => ok_nf _) (fun _ => err_nf c)
  refine ite_nf (fun _ => ok_nf _) (fun n1 => ?_)
  refine ite_nf (fun h => absurd h hcall) (fun n2 => ?_)
  refine ite_nf (fun _ => ok_nf _) (fun n3 => ?_)
  refine ite_nf (fun _ => ok_nf _) (fun n4 => ?_)
  refine ite_nf (fun _ => ok_nf _) (fun n5 => ?_)
  refine ite_nf (fun _ => ok_nf _) (fun n6 => ?_)
  refine ite_nf (fun _ => ok_nf _) (fun n7 => ?_)
  refine ite_nf (fun _ => ?_) (fun n8 => ?_)
  · unfold eightxSwitch
    refine ite_nf (fun _ => ok_nf _) (fun _ => ?_)
    refine ite_nf (fun _ => ok_nf _) (fun _ => ?_)
    refine ite_nf (fun _ => ok_nf _) (fun _ => ?_)
    refine ite_nf (fun _ => ok_nf _) (fun _ => ?_)
    refine ite_nf (fun _ => ok_nf _) (fun _ => ?_)
    refine ite_nf (fun _ => ok_nf _) (fun _ => ?_)
    refine ite_nf (fun _ => ok_nf _) (fun _ => ?_)
    refine ite_nf (fun _ => ok_nf _) (fun _ => ?_)
    exact ite_nf (fun _ => ok_nf _) (fun _ => err_nf c)
  refine ite_nf (fun _ => ok_nf _) (fun n9 => ?_)
  refine ite_nf (fun _ => ok_nf _) (fun na => ?_)
  refine ite_nf (fun _ => ok_nf _) (fun nb => ?_)
  refine ite_nf (fun _ => ok_nf _) (fun nc => ?_)
  refine ite_nf (fun hd => ofOption_nf (draw_some c (hD hd))) (fun nd => ?_)
  refine ite_nf (fun h => absurd h hkey) (fun ne => ?_)
  refine ite_nf (fun hF => ?_) (fun nf => ?_)
  · unfold fxSwitch
    refine ite_nf (fun _ => ok_nf _) (fun _ => ?_)
    refine ite_nf (fun _ => ok_nf _) (fun _ => ?_)
    refine ite_nf (fun _ => ok_nf _) (fun _ => ?_)
    refine ite_nf (fun _ => ok_nf _) (fun _ => ?_)
    refine ite_nf (fun _ => ok_nf _) (fun _ => ?_)
    refine ite_nf (fun _ => ok_nf _) (fun _ => ?_)
    refine ite_nf (fun h => ofOption_nf (vxToRAM_some c (hB hF h))) (fun _ => ?_)
    refine ite_nf (fun h => ofOption_nf (regDump_some c (hT hF (Or.inl h)))) (fun _ => ?_)
    exact ite_nf (fun h => ofOption_nf (regLoad_some c (hT hF (Or.inr h))))
      (fun _ => err_nf c)
  · exfalso
    rw [and_F000] at n0 n1 n2 n3 n4 n5 n6 n7 n8 n9 na nb nc nd ne nf
    omega

/-- C16 as stated fails: after the jump `1FFF` the program counter is 0xFFF and
the next tick faults in `fetch`, which indexes the 4000-byte memory array with
0xFFF. -/
theorem jump_out_of_memory_faults :
    jumpHighMachine.opcodeAt = 0x1FFF ∧
    ∃ s', jumpHighMachine.Tick 0 = Outcome.ok s' ∧ s'.cpu.PC = 0xFFF ∧
      s'.Tick 0 = Outcome.fault :=
  ⟨by decide, _, rfl, by decide, rfl⟩

/-- C16, amended (no address masking). For every machine: when `PC` and
`PC + 1` lie inside memory and, for the instructions
`DXYN`, `FX33`, `FX55` and `FX65`, the bytes `I .. I+N-1`, `I .. I+2` and
`I .. I+X` they address lie inside memory, a tick does not fault unless the
instruction indexes the stack (return, call) or the key latch (0xE family); and
when `PC` is 0xFFF or more, so that `PC + 1` lies beyond the 12-bit address
space, the tick faults. -/
theorem Tick_memory_safety (rnd : Nat) (s : Chip8) :
    (s.cpu.PC + 1 < RamSize →
      (s.opcodeAt &&& 0xF000 = 0xd000 → s.cpu.I + (s.opcodeAt &&& 0x000F) ≤ RamSize) →
      (s.opcodeAt &&& 0xF000 = 0xf000 → s.opcodeAt &&& 0x00FF = 0x0033 →
        s.cpu.I + 2 < RamSize) →
      (s.opcodeAt &&& 0xF000 = 0xf000 →
        (s.opcodeAt &&& 0x00FF = 0x0055 ∨ s.opcodeAt &&& 0x00FF = 0x0065) →
        s.cpu.I + ((s.opcodeAt &&& 0x0F00) >>> 8) < RamSize) →
      ¬ s.opcodeAt &&& 0xF00F = 0x000E → ¬ s.opcodeAt &&& 0xF000 = 0x2000 →
      ¬ s.opcodeAt &&& 0xF000 = 0xe000 →
      s.Tick rnd ≠ Outcome.fault) ∧
    (0xFFF ≤ s.cpu.PC → s.Tick rnd = Outcome.fault) := by
  constructor
  · intro hpc hD hB hT hret hcall hkey
    have hnf := decodeExecute_no_fault rnd s.fetched hD hB hT hret hcall hkey
    unfold Tick
    rw [fetch_eq s hpc]
    dsimp only
    cases hd : s.fetched.decodeExecute rnd with
    | ok c =>
      intro h
      cases h
    | err raw c =>
      intro h
      cases h
    | fault => exact absurd hd hnf
  · intro hpc
    have hf : s.fetch = none := by
      unfold fetch
      rw [if_neg]
      unfold RamSize
      omega
    unfold Tick
    rw [hf]

/-- Instance of `Tick_memory_safety`: the BCD instruction of `bcdMachine`
(`I = 0x300`) does not fault, and the machine left at `PC = 0xFFF` by the jump
`1FFF` faults. -/
theorem Tick_memory_safety_witness :
    bcdMachine.Tick 0 ≠ Outcome.fault ∧
    (jumpHighMachine.setCpu { jumpHighMachine.cpu with PC := 0xFFF }).Tick 0
      = Outcome.fault :=
  ⟨(Tick_memory_safety 0 bcdMachine).1 (by decide) (by decide) (by decide) (by decide)
      (by decide) (by decide) (by decide),
    (Tick_memory_safety 0 (jumpHighMachine.setCpu { jumpHighMachine.cpu with PC := 0xFFF })).2
      (by decide)⟩

end Chip8

namespace Chip8

theorem pc_foldlM (f : Chip8 → Nat → Option Chip8)
    (hf : ∀ c i c', f c i = some c' → c'.cpu.PC = c.cpu.PC) (l : List Nat) :
    ∀ c c', l.foldlM f c = some c' → c'.cpu.PC = c.cpu.PC := by
  induction l with
  | nil =>
    intro c c' h
    simp only [List.foldlM_nil, pure, Option.some.injEq] at h
    rw [← h]
  | cons i l ih =>
    intro c c' h
    rw [List.foldlM_cons] at h
    cases hstep : f c i with
    | none =>
      rw [hstep] at h
      cases h
    | some c1 =>
      rw [hstep] at h
      rw [ih c1 c' h, hf c i c1 hstep]

theorem pc_foldl (f : Chip8 → Nat → Chip8) (hf : ∀ c i, (f c i).cpu.PC = c.cpu.PC)
    (l : List Nat) : ∀ c, (l.foldl f c).cpu.PC = c.cpu.PC := by
  induction l with
  | nil =>
    intro c
    rfl
  | cons i l ih =>
    intro c
    rw [List.foldl_cons, ih, hf]

theorem pc_setRam (c c' : Chip8) (addr v : Nat) (h : c.setRam addr v = some c') :
    c'.cpu.PC = c.cpu.PC := by
  unfold setRam at h
  split_ifs at h
  simp only [Option.some.injEq] at h
  rw [← h]

theorem pc_add (c : Chip8) : c.add.cpu.PC = (c.cpu.PC + 2) % 65536 := by
  rw [add_eq]
  rfl

theorem pc_sub (c : Chip8) : c.sub.cpu.PC = (c.cpu.PC + 2) % 65536 := by
  rw [sub_eq]
  rfl

theorem pc_vxSubVy (c : Chip8) : c.vxSubVy.cpu.PC = (c.cpu.PC + 2) % 65536 := by
  unfold vxSubVy
  dsimp only
  split_ifs <;> rfl

theorem pc_drawPixel (x y r pixel : Nat) (c : Chip8) (col : Nat) :
    (drawPixel x y r pixel c col).cpu.PC = c.cpu.PC := by
  unfold drawPixel
  dsimp only
  split_ifs <;> rfl

theorem pc_drawRow (x y : Nat) (c : Chip8) (r : Nat) (c' : Chip8)
    (h : drawRow x y c r = some c') : c'.cpu.PC = c.cpu.PC := by
  unfold drawRow at h
  dsimp only at h
  split_ifs at h
  simp only [Option.some.injEq] at h
  rw [← h]
  exact pc_foldl _ (fun a i => pc_drawPixel x y r _ a i) _ c

theorem pc_draw (c c' : Chip8) (h : c.draw = some c') :
    c'.cpu.PC = (c.cpu.PC + 2) % 65536 := by
  unfold draw at h
  dsimp only at h
  cases hl : (List.range (c.opcode &&& 0x000F)).foldlM
      (drawRow (c.cpu.V c.opX) (c.cpu.V c.opY)) (c.setV 0xF 0) with
  | none =>
    rw [hl] at h
    cases h
  | some c1 =>
    rw [hl] at h
    simp only [Option.some.injEq] at h
    rw [← h]
    have h1 := pc_foldlM _ (fun a i b hab => pc_drawRow _ _ a i b hab) _ _ _ hl
    show (c1.cpu.PC + 2) % 65536 = _
    rw [h1]
    rfl

theorem pc_vxToRAM (c c' : Chip8) (h : c.vxToRAM = some c') :
    c'.cpu.PC = (c.cpu.PC + 2) % 65536 := by
  unfold vxToRAM at h
  cases h1 : c.setRam c.cpu.I (c.cpu.V c.opX / 100) with
  | none =>
    rw [h1] at h
    cases h
  | some c1 =>
    rw [h1] at h
    dsimp only at h
    cases h2 : c1.setRam (c1.cpu.I + 1) (c1.cpu.V c1.opX / 10 % 10) with
    | none =>
      rw [h2] at h
      cases h
    | some c2 =>
      rw [h2] at h
      dsimp only at h
      cases h3 : c2.setRam (c2.cpu.I + 2) (c2.cpu.V c2.opX % 100 % 10) with
      | none =>
        rw [h3] at h
        cases h
      | some c3 =>
        rw [h3] at h
        simp only [Option.some.injEq] at h
        rw [← h, advance_PC, pc_setRam _ _ _ _ h3, pc_setRam _ _ _ _ h2, pc_setRam _ _ _ _ h1]

theorem pc_regDump (c c' : Chip8) (h : c.regDump = some c') :
    c'.cpu.PC = (c.cpu.PC + 2) % 65536 := by
  unfold regDump at h
  dsimp only at h
  cases hl : (List.range (c.opX + 1)).foldlM regDumpStep c with
  | none =>
    rw [hl] at h
    cases h
  | some c1 =>
    rw [hl] at h
    simp only [Option.some.injEq] at h
    rw [← h, advance_PC,
      pc_foldlM regDumpStep (fun a i b hab => pc_setRam a b _ _ hab) _ _ _ hl]

theorem pc_regLoadStep (c : Chip8) (i : Nat) (c' : Chip8) (h : regLoadStep c i = some c') :
    c'.cpu.PC = c.cpu.PC := by
  unfold regLoadStep at h
  split_ifs at h
  simp only [Option.some.injEq] at h
  rw [← h]
  rfl

theorem pc_regLoad (c c' : Chip8) (h : c.regLoad = some c') :
    c'.cpu.PC = (c.cpu.PC + 2) % 65536 := by
  unfold regLoad at h
  dsimp only at h
  cases hl : (List.range (c.opX + 1)).foldlM regLoadStep c with
  | none =>
    rw [hl] at h
    cases h
  | some c1 =>
    rw [hl] at h
    simp only [Option.some.injEq] at h
    rw [← h, advance_PC, pc_foldlM regLoadStep pc_regLoadStep _ _ _ hl]

theorem pc_callFunc (c c' : Chip8) (h : c.callFunc = some c') :
    c'.cpu.PC = c.opcode &&& 0x0FFF := by
  unfold callFunc at h
  dsimp only at h
  split_ifs at h
  simp only [Option.some.injEq] at h
  rw [← h]
  rfl

/-- Program-counter effect of every handler that returns nil, by opcode class:
`+2` for the 0NNN family except `0NNE`, for the families 6, 7, 8, A, C, D and
for the F family except `FX0A`; the literal address for `1NNN` and `2NNN`;
`NNN + V0` for `BNNN`. -/
theorem decodeExecute_pc (rnd : Nat) (c : Chip8) :
    ∀ c', c.decodeExecute rnd = Outcome.ok c' →
      (((c.opcode &&& 0xF000 = 0x0000 ∧ c.opcode &&& 0xF00F ≠ 0x000E) ∨
          c.opcode &&& 0xF000 = 0x6000 ∨ c.opcode &&& 0xF000 = 0x7000 ∨
          c.opcode &&& 0xF000 = 0x8000 ∨ c.opcode &&& 0xF000 = 0xa000 ∨
          c.opcode &&& 0xF000 = 0xc000 ∨ c.opcode &&& 0xF000 = 0xd000 ∨
          (c.opcode &&& 0xF000 = 0xf000 ∧ c.opcode &&& 0x00FF ≠ 0x000A)) →
        c'.cpu.PC = (c.cpu.PC + 2) % 65536) ∧
      ((c.opcode &&& 0xF000 = 0x1000 ∨ c.opcode &&& 0xF000 = 0x2000) →
        c'.cpu.PC = c.opcode &&& 0x0FFF) ∧
      (c.opcode &&& 0xF000 = 0xb000 →
        c'.cpu.PC = ((c.opcode &&& 0x0FFF) + c.cpu.V 0) % 65536) := by
  unfold decodeExecute
  dsimp only
  refine ite_ok (fun h0 => ?_) (fun n0 => ?_)
  · unfold zxSwitch
    refine ite_ok (fun _ => ok_ok ⟨fun _ => rfl, ?_, ?_⟩) (fun _ => ?_)
    · intro h
      rw [h0] at h
      omega
    · intro h
      rw [h0] at h
      omega
    refine ite_ok (fun hE => ofOption_ok (fun x _ => ⟨?_, ?_, ?_⟩)) (fun _ => ?_)
    · intro h
      rw [h0] at h
      omega
    · intro h
      rw [h0] at h
      omega
    · intro h
      rw [h0] at h
      omega
    refine ite_ok (fun _ => ok_ok ⟨fun _ => rfl, ?_, ?_⟩) (fun _ => err_ok c)
    · intro h
      rw [h0] at h
      omega
    · intro h
      rw [h0] at h
      omega
  refine ite_ok (fun h1 => ok_ok ⟨?_, fun _ => rfl, ?_⟩) (fun n1 => ?_)
  · intro h
    rw [h1] at h
    omega
  · intro h
    rw [h1] at h
    omega
  refine ite_ok (fun h2 => ofOption_ok (fun x hx => ⟨?_, fun _ => pc_callFunc c x hx, ?_⟩))
    (fun n2 => ?_)
  · intro h
    rw [h2] at h
    omega
  · intro h
    rw [h2] at h
    omega
  refine ite_ok (fun h3 => ok_ok ⟨?_, ?_, ?_⟩) (fun n3 => ?_)
  · intro h
    rw [h3] at h
    omega
  · intro h
    rw [h3] at h
    omega
  · intro h
    rw [h3] at h
    omega
  refine ite_ok (fun h4 => ok_ok ⟨?_, ?_, ?_⟩) (fun n4 => ?_)
  · intro h
    rw [h4] at h
    omega
  · intro h
    rw [h4] at h
    omega
  · intro h
    rw [h4] at h
    omega
  refine ite_ok (fun h5 => ok_ok ⟨?_, ?_, ?_⟩) (fun n5 => ?_)
  · intro h
    rw [h5] at h
    omega
  · intro h
    rw [h5] at h
    omega
  · intro h
    rw [h5] at h
    omega
  refine ite_ok (fun h6 => ok_ok ⟨fun _ => rfl, ?_, ?_⟩) (fun n6 => ?_)
  · intro h
    rw [h6] at h
    omega
  · intro h
    rw [h6] at h
    omega
  refine ite_ok (fun h7 => ok_ok ⟨fun _ => rfl, ?_, ?_⟩) (fun n7 => ?_)
  · intro h
    rw [h7] at h
    omega
  · intro h
    rw [h7] at h
    omega
  refine ite_ok (fun h8 => ?_) (fun n8 => ?_)
  · have k : ∀ x : Chip8, x.cpu.PC = (c.cpu.PC + 2) % 65536 →
        ((((c.opcode &&& 0xF000 = 0x0000 ∧ c.opcode &&& 0xF00F ≠ 0x000E) ∨
          c.opcode &&& 0xF000 = 0x6000 ∨ c.opcode &&& 0xF000 = 0x7000 ∨
          c.opcode &&& 0xF000 = 0x8000 ∨ c.opcode &&& 0xF000 = 0xa000 ∨
          c.opcode &&& 0xF000 = 0xc000 ∨ c.opcode &&& 0xF000 = 0xd000 ∨
          (c.opcode &&& 0xF000 = 0xf000 ∧ c.opcode &&& 0x00FF ≠ 0x000A)) →
        x.cpu.PC = (c.cpu.PC + 2) % 65536) ∧
      ((c.opcode &&& 0xF000 = 0x1000 ∨ c.opcode &&& 0xF000 = 0x2000) →
        x.cpu.PC = c.opcode &&& 0x0FFF) ∧
      (c.opcode &&& 0xF000 = 0xb000 →
        x.cpu.PC = ((c.opcode &&& 0x0FFF) + c.cpu.V 0) % 65536)) := by
      intro x hx
      refine ⟨fun _ => hx, ?_, ?_⟩
      · intro h
        rw [h8] at h
        omega
      · intro h
        rw [h8] at h
        omega
    unfold eightxSwitch
    refine ite_ok (fun _ => ok_ok (k _ rfl)) (fun _ => ?_)
    refine ite_ok (fun _ => ok_ok (k _ rfl)) (fun _ => ?_)
    refine ite_ok (fun _ => ok_ok (k _ rfl)) (fun _ => ?_)
    refine ite_ok (fun _ => ok_ok (k _ rfl)) (fun _ => ?_)
    refine ite_ok (fun _ => ok_ok (k _ (pc_add c))) (fun _ => ?_)
    refine ite_ok (fun _ => ok_ok (k _ (pc_sub c))) (fun _ => ?_)
    refine ite_ok (fun _ => ok_ok (k _ rfl)) (fun _ => ?_)
    refine ite_ok (fun _ => ok_ok (k _ (pc_vxSubVy c))) (fun _ => ?_)
    exact ite_ok (fun _ => ok_ok (k _ rfl)) (fun _ => err_ok c)
  refine ite_ok (fun h9 => ok_ok ⟨?_, ?_, ?_⟩) (fun n9 => ?_)
  · intro h
    rw [h9] at h
    omega
  · intro h
    rw [h9] at h
    omega
  · intro h
    rw [h9] at h
    omega
  refine ite_ok (fun ha => ok_ok ⟨fun _ => rfl, ?_, ?_⟩) (fun na => ?_)
  · intro h
    rw [ha] at h
    omega
  · intro h
    rw [ha] at h
    omega
  refine ite_ok (fun hb => ok_ok ⟨?_, ?_, fun _ => rfl⟩) (fun nb => ?_)
  · intro h
    rw [hb] at h
    omega
  · intro h
    rw [hb] at h
    omega
  refine ite_ok (fun hc => ok_ok ⟨fun _ => rfl, ?_, ?_⟩) (fun nc => ?_)
  · intro h
    rw [hc] at h
    omega
  · intro h
    rw [hc] at h
    omega
  refine ite_ok (fun hd => ofOption_ok (fun x hx => ⟨fun _ => pc_draw c x hx, ?_, ?_⟩))
    (fun nd => ?_)
  · intro h
    rw [hd] at h
    omega
  · intro h
    rw [hd] at h
    omega
  refine ite_ok (fun he => ?_) (fun ne => ?_)
  · intro c' _
    refine ⟨?_, ?_, ?_⟩
    · intro h
      rw [he] at h
      omega
    · intro h
      rw [he] at h
      omega
    · intro h
      rw [he] at h
      omega
  refine ite_ok (fun hf => ?_) (fun _ => fault_ok)
  have k : ∀ x : Chip8, (c.opcode &&& 0x00FF ≠ 0x000A → x.cpu.PC = (c.cpu.PC + 2) % 65536) →
      ((((c.opcode &&& 0xF000 = 0x0000 ∧ c.opcode &&& 0xF00F ≠ 0x000E) ∨
        c.opcode &&& 0xF000 = 0x6000 ∨ c.opcode &&& 0xF000 = 0x7000 ∨
        c.opcode &&& 0xF000 = 0x8000 ∨ c.opcode &&& 0xF000 = 0xa000 ∨
        c.opcode &&& 0xF000 = 0xc000 ∨ c.opcode &&& 0xF000 = 0xd000 ∨
        (c.opcode &&& 0xF000 = 0xf000 ∧ c.opcode &&& 0x00FF ≠ 0x000A)) →
      x.cpu.PC = (c.cpu.PC + 2) % 65536) ∧
    ((c.opcode &&& 0xF000 = 0x1000 ∨ c.opcode &&& 0xF000 = 0x2000) →
      x.cpu.PC = c.opcode &&& 0x0FFF) ∧
    (c.opcode &&& 0xF000 = 0xb000 →
      x.cpu.PC = ((c.opcode &&& 0x0FFF) + c.cpu.V 0) % 65536)) := by
    intro x hx
    refine ⟨fun h => hx ?_, ?_, ?_⟩
    · rw [hf] at h
      omega
    · intro h
      rw [hf] at h
      omega
    · intro h
      rw [hf] at h
      omega
  unfold fxSwitch
  refine ite_ok (fun _ => ok_ok (k _ (fun _ => rfl))) (fun _ => ?_)
  refine ite_ok (fun hA => ok_ok (k _ (fun hne => absurd hA hne))) (fun _ => ?_)
  refine ite_ok (fun _ => ok_ok (k _ (fun _ => rfl))) (fun _ => ?_)
  refine ite_ok (fun _ => ok_ok (k _ (fun _ => rfl))) (fun _ => ?_)
  refine ite_ok (fun _ => ok_ok (k _ (fun _ => rfl))) (fun _ => ?_)
  refine ite_ok (fun _ => ok_ok (k _ (fun _ => rfl))) (fun _ => ?_)
  refine ite_ok (fun _ => ofOption_ok (fun x hx => k x (fun _ => pc_vxToRAM c x hx)))
    (fun _ => ?_)
  refine ite_ok (fun _ => ofOption_ok (fun x hx => k x (fun _ => pc_regDump c x hx)))
    (fun _ => ?_)
  exact ite_ok (fun _ => ofOption_ok (fun x hx => k x (fun _ => pc_regLoad c x hx)))
    (fun _ => err_ok c)

/-- Program-counter discipline at the level of `Tick`: the statement of
`decodeExecute_pc` for the fetched opcode of a successful tick. -/
theorem Tick_pc (rnd : Nat) (s s' : Chip8) (h : s.Tick rnd = Outcome.ok s') :
    (((s.opcodeAt &&& 0xF000 = 0x0000 ∧ s.opcodeAt &&& 0xF00F ≠ 0x000E) ∨
        s.opcodeAt &&& 0xF000 = 0x6000 ∨ s.opcodeAt &&& 0xF000 = 0x7000 ∨
        s.opcodeAt &&& 0xF000 = 0x8000 ∨ s.opcodeAt &&& 0xF000 = 0xa000 ∨
        s.opcodeAt &&& 0xF000 = 0xc000 ∨ s.opcodeAt &&& 0xF000 = 0xd000 ∨
        (s.opcodeAt &&& 0xF000 = 0xf000 ∧ s.opcodeAt &&& 0x00FF ≠ 0x000A)) →
      s'.cpu.PC = (s.cpu.PC + 2) % 65536) ∧
    ((s.opcodeAt &&& 0xF000 = 0x1000 ∨ s.opcodeAt &&& 0xF000 = 0x2000) →
      s'.cpu.PC = s.opcodeAt &&& 0x0FFF) ∧
    (s.opcodeAt &&& 0xF000 = 0xb000 →
      s'.cpu.PC = ((s.opcodeAt &&& 0x0FFF) + s.cpu.V 0) % 65536) := by
  obtain ⟨c, hd, hs⟩ := Tick_ok_inv rnd s s' h
  have := decodeExecute_pc rnd s.fetched c hd
  rw [fetched_opcode, fetched_cpu] at this
  subst hs
  rw [tickTimers_PC]
  exact this

end Chip8

/-! ## Dirty flag and program counter -/

namespace Chip8

/-- C18 (dirty flag). On the fresh machine running `A200 D001 00E0`: after the
draw (second tick) `CheckDraw` returns true and clears the flag; the third
tick, `00E0`, changes the framebuffer (cell 0 goes from 1 to 0), yet the next
`CheckDraw` returns false: `clearScreen` never sets `shouldDraw`. -/
theorem clear_screen_not_reported :
    ∃ s2 s3, runTicks (fun _ => 0) 2 clearAfterDrawMachine = Outcome.ok s2 ∧
      s2.CheckDraw.1 = true ∧ s2.CheckDraw.2.opcodeAt = 0x00E0 ∧
      s2.CheckDraw.2.display 0 = 1 ∧
      s2.CheckDraw.2.Tick 0 = Outcome.ok s3 ∧ s3.display 0 = 0 ∧
      s3.display ≠ s2.CheckDraw.2.display ∧ s3.CheckDraw.1 = false := by
  refine ⟨_, _, rfl, by decide, by decide, by decide, rfl, by decide, ?_, by decide⟩
  intro h
  have h0 := congrFun h 0
  revert h0
  decide

/-- C19 (program counter). On the fresh machine whose next instruction is
`000E` (family 0NNN, not `00EE`) at `PC = 0x200`, the tick succeeds with
`PC = 0`, not `0x202`: `zxSwitch` matches on `opcode & 0xF00F`, so every `0NNE`
runs the return handler, which loads `PC` from `Stack[SP]`. For all other
instructions the program counter behaves as `Tick_pc` states. -/
theorem machine_code_call_runs_return :
    machineCodeCallMachine.opcodeAt = 0x000E ∧ machineCodeCallMachine.cpu.PC = 0x200 ∧
    ∃ s', machineCodeCallMachine.Tick 0 = Outcome.ok s' ∧ s'.cpu.PC = 0 ∧
      s'.cpu.PC ≠ (machineCodeCallMachine.cpu.PC + 2) % 65536 :=
  ⟨by decide, by decide, _, rfl, by decide, by decide⟩

end Chip8
